import Mathlib

/-!
Verification development for the rodi dependency-injection container.

The Python sources under `rodi/` are embedded shallowly:

* types registered in the container are identifiers (`Ty`); the runtime
  introspection oracle (constructor signatures, class annotations, class
  names) is a `ClassTable` supplied to every operation, mirroring the
  "opaque type-introspection facility" of the design;
* Python dicts become association lists with dict update semantics
  (replace in place, append when fresh);
* raised exceptions become an `Err` sum returned through `Except` (for
  operations that only raise, the Python convention of leaving the object
  untouched is rendered by returning the state at raise time);
* the recursive provider-building walk of `DynamicResolver` is driven by
  an explicit call-depth budget: running out of budget plays the role of
  Python's `RecursionError`, which `DynamicResolver.__call__` converts to
  a circular-dependency error;
* constructed instances carry a unique identity (`Value.obj cls id`)
  allocated from a counter in the runtime state, so instance-identity
  claims (singleton / scoped / transient caching) are expressible;
* awaitables are values `Value.coro p`: calling an async provider
  synchronously yields such a value, awaiting it runs the async body.
-/

-- Results of fallible operations are compared propositionally in the
-- theorems below; `Except` needs decidable equality for that.
deriving instance DecidableEq for Except

/-- A registered Python type, by identity. -/
abbrev Ty := Nat

/-- Lookup key of the service maps: a type or a string name
(`Key = Union[AnyType, str]` in `rodi/typings.py`). -/
inductive Key where
  | ty (t : Ty)
  | str (s : String)
deriving DecidableEq, Repr

/-- Python runtime values as far as the container observes them:
instances with identity, `None`, numbers, strings, and coroutine objects
produced by calling an async provider. -/
inductive Value where
  | obj (cls : Ty) (id : Nat)
  | vnone
  | int (z : Int)
  | str (s : String)
  | coro (p : Nat)
deriving DecidableEq, Repr

/-- Python truthiness for the values above (`if scoped_service:` in
`Services.get` tests truthiness, not presence). -/
def truthy : Value → Bool
  | .obj _ _ => true
  | .vnone => false
  | .int z => z != 0
  | .str s => s ≠ ""
  | .coro _ => true

/-- Modelled from the spec: `rodi/constants.py` is not under `src/`; the
spec's glossary gives the three lifetimes (transient / scoped /
singleton) of `ServiceLifeStyle`. -/
inductive LifeStyle where
  | singleton
  | transient
  | scoped
deriving DecidableEq, Repr

/-- Modelled from the spec: `rodi/exceptions.py` is not under `src/`; the
error taxonomy of spec section 7 names the exception kinds, and the raise
sites in the embedded sources determine which is used where.
`recursionError` stands for Python's builtin `RecursionError`,
`assertionError` for a failing `assert` statement, and `outOfFuel` /
`invalidProvider` / `notAwaitable` are artifacts of the finite embedding
(never reached in the modelled scenarios). -/
inductive Err where
  | overridingService
  | aliasAlreadyDefined (name : String)
  | invalidOperationInStrictMode
  | circularDependency (entry : Ty) (current : Ty)
  | cannotResolveParameter (param : String) (concrete : Ty)
  | unsupportedUnion (param : String) (concrete : Ty)
  | cannotResolve (key : Key)
  | aliasConfigurationError (name : String)
  | assertionError (msg : String)
  | recursionError
  | outOfFuel
  | invalidProvider
  | notAwaitable
deriving DecidableEq, Repr

/-- A declared parameter / field type as reported by the introspection
oracle: a concrete type, a union (`is_union` true), or `inspect._empty`. -/
inductive Ann where
  | empty
  | ty (t : Ty)
  | union (ts : List Ty)
deriving DecidableEq, Repr

/-- What the introspection oracle knows about one class: its `__name__`,
its own `__init__` signature (`none` when the class keeps the default
`object.__init__`, cf. `_has_default_init`), and its class annotations
(`get_type_hints` on the class, used by the property-injection path). -/
structure ClassDef where
  name : String
  init : Option (List (String × Ann))
  anns : List (String × Ann)
deriving DecidableEq, Repr

/-- The introspection oracle. -/
abbrev ClassTable := Ty → ClassDef

/-- Kind of a user factory, as the `inspect` predicates classify it in
`FactoryResolver.__call__`; generator factories (context-manager
resources) are outside the modelled fragment. -/
inductive FactoryKind where
  | plain
  | coroutine
deriving DecidableEq, Repr

/-- Behaviour of a user factory body. `newObj t` allocates a fresh
instance of `t`, `retNone` returns `None`, `retVal` returns a fixed
value, `fieldsInit` is the internal closure built by
`get_annotations_type_provider` (construct a bare instance, then resolve
and assign each annotated field in order). -/
inductive FactoryBody where
  | newObj (t : Ty)
  | retNone
  | retVal (v : Value)
  | fieldsInit (t : Ty) (fields : List (String × Nat))
deriving DecidableEq, Repr

/-- A user factory after `_check_factory` arity normalisation: it is
invoked as `factory(context, parent_type)`. -/
structure FactorySpec where
  kind : FactoryKind
  body : FactoryBody
deriving DecidableEq, Repr

/-- The resolvers stored in `Container._map`: `DynamicResolver`,
`FactoryResolver` and `InstanceResolver`. -/
inductive Resolver where
  | dynamic (concrete : Ty) (ls : LifeStyle)
  | factory (retTy : Ty) (f : FactorySpec) (ls : LifeStyle)
  | instanceR (v : Value)
deriving DecidableEq, Repr

/-- Association-list lookup (Python `dict.get`). -/
def alookup {κ α : Type} [DecidableEq κ] : List (κ × α) → κ → Option α
  | [], _ => none
  | (k', v) :: rest, k => if k' = k then some v else alookup rest k

/-- Association-list update with Python dict semantics: replace in place
when the key exists, append otherwise. -/
def ainsert {κ α : Type} [DecidableEq κ] : List (κ × α) → κ → α → List (κ × α)
  | [], k, v => [(k, v)]
  | (k', v') :: rest, k, v =>
      if k' = k then (k, v) :: rest else (k', v') :: ainsert rest k v

/-- Key membership (Python `k in d`). -/
def hasKey {κ α : Type} [DecidableEq κ] (m : List (κ × α)) (k : κ) : Bool :=
  (alookup m k).isSome

/-- Character class `[A-Z]` of the regexes in `rodi/common.py`. -/
def upperAZ (c : Char) : Bool := 'A' ≤ c && c ≤ 'Z'

/-- Character class `[a-z]` of `first_cap_re`. -/
def lowerAZ (c : Char) : Bool := 'a' ≤ c && c ≤ 'z'

/-- Character class `[a-z0-9]` of `all_cap_re`. -/
def lowerDigit (c : Char) : Bool := lowerAZ c || ('0' ≤ c && c ≤ '9')

/-- Scanner for `subFirstCap`, structural in a step budget (each step
consumes at least one character, so a budget of the string length is
always enough; the budget-exhausted fallback is unreachable). -/
def subFirstCapAux : Nat → List Char → List Char
  | 0, l => l
  | _ + 1, [] => []
  | _ + 1, [c] => [c]
  | fuel + 1, c1 :: c2 :: rest =>
      if upperAZ c2 && (rest.takeWhile lowerAZ) ≠ [] then
        let run := rest.takeWhile lowerAZ
        c1 :: '_' :: c2 :: run ++ subFirstCapAux fuel (rest.drop run.length)
      else
        c1 :: subFirstCapAux fuel (c2 :: rest)

/-- Leftmost non-overlapping substitution of
`first_cap_re = (.)([A-Z][a-z]+)` by `\1_\2`: any character followed by
an uppercase letter and a maximal nonempty run of lowercase letters gets
an underscore inserted after it; scanning resumes after the match. -/
def subFirstCap (l : List Char) : List Char := subFirstCapAux l.length l

/-- Leftmost non-overlapping substitution of
`all_cap_re = ([a-z0-9])([A-Z])` by `\1_\2`. -/
def subAllCap : List Char → List Char
  | [] => []
  | [c] => [c]
  | c1 :: c2 :: rest =>
      if lowerDigit c1 && upperAZ c2 then
        c1 :: '_' :: c2 :: subAllCap rest
      else
        c1 :: subAllCap (c2 :: rest)

/-- Python `str.lower()` on one character of an ASCII identifier. -/
def lowerChar (c : Char) : Char :=
  if 'A' ≤ c && c ≤ 'Z' then Char.ofNat (c.toNat + 32) else c

/-- Python `str.lower()` on an ASCII identifier. -/
def pyLower (s : String) : String := String.mk (s.toList.map lowerChar)

/-- Python `"." in name` (class names contain at most single-character
separators). -/
def containsDot (s : String) : Bool := s.toList.contains '.'

/-- Function `to_standard_param_name` from `rodi/common.py`: the two camel-case
substitutions, lowercasing, and the `i_` prefix rule
(`value.startswith("i_")` rendered structurally on the characters). -/
def to_standard_param_name (name : String) : String :=
  let value := pyLower (String.mk (subAllCap (subFirstCap name.toList)))
  match value.toList with
  | 'i' :: '_' :: rest => String.mk ('i' :: rest)
  | _ => value

/-- Function `class_name` from `rodi/common.py`, through the oracle: the bare
`__name__` of the type. -/
def class_name (Γ : ClassTable) (t : Ty) : String := (Γ t).name

/-- The `Container`: the binding registry (`_map`), the implicit alias table
(`_aliases`, a dict of sets rendered as an insertion-ordered list of
insertion-ordered duplicate-free lists), the exact alias table
(`_exact_aliases`) and the `strict` flag. -/
structure Container where
  map : List (Ty × Resolver)
  aliases : List (String × List Ty)
  exactAliases : List (String × Ty)
  strict : Bool
deriving DecidableEq, Repr

/-- The empty, non-strict container. -/
def Container.empty : Container := ⟨[], [], [], false⟩

/-- Operation `self._aliases[name].add(t)` on the defaultdict of sets. -/
def aliasAdd (m : List (String × List Ty)) (name : String) (t : Ty) :
    List (String × List Ty) :=
  match alookup m name with
  | some ts => if t ∈ ts then m else ainsert m name (ts ++ [t])
  | none => m ++ [(name, [t])]

/-- Method `Container._bind`: fail on an already bound key, otherwise store the
resolver and, unless strict or the class name is qualified (contains a
dot), auto-register the three implicit aliases (exact name, lowercase,
snake case).  The pair returned is (raised error, state at return/raise
time); the raise happens before any mutation. -/
def _bind (Γ : ClassTable) (c : Container) (key : Ty) (value : Resolver) :
    Option Err × Container :=
  if hasKey c.map key then (some .overridingService, c)
  else
    let c := { c with map := ainsert c.map key value }
    let keyName := class_name Γ key
    if c.strict || containsDot keyName then (none, c)
    else
      (none, { c with
        aliases :=
          aliasAdd
            (aliasAdd (aliasAdd c.aliases keyName key) (pyLower keyName) key)
            (to_standard_param_name keyName) key })

/-- Method `Container.add_alias`: rejected in strict mode; rejected when the
name is already an implicit or exact alias; otherwise adds the name to
the implicit alias table. -/
def add_alias (c : Container) (name : String) (desired : Ty) :
    Option Err × Container :=
  if c.strict then (some .invalidOperationInStrictMode, c)
  else if hasKey c.aliases name || hasKey c.exactAliases name then
    (some (.aliasAlreadyDefined name), c)
  else (none, { c with aliases := aliasAdd c.aliases name desired })

/-- Index of a provider object in the build heap; provider objects are
allocated once and may be shared (the memoisation in
`ResolutionContext.resolved` hands the same object to several users). -/
abbrev PId := Nat

/-- The provider objects of `rodi/providers/*.py` that the modelled
fragment can build, named after their Python classes.  Singleton
providers keep their `_instance` cell in the runtime state, keyed by
their heap index; scoped providers cache in the activation scope. -/
inductive ProviderDesc where
  | instanceP (v : Value)
  | typeP (t : Ty)
  | argsTypeP (t : Ty) (deps : List PId)
  | scopedTypeP (t : Ty)
  | scopedArgsTypeP (t : Ty) (deps : List PId)
  | singletonTypeP (t : Ty)
  | singletonArgsTypeP (t : Ty) (deps : List PId)
  | factoryP (t : Ty) (f : FactorySpec)
  | scopedFactoryP (t : Ty) (f : FactorySpec)
  | singletonFactoryP (t : Ty) (f : FactorySpec)
  | asyncFactoryP (t : Ty) (f : FactorySpec)
  | asyncScopedFactoryP (t : Ty) (f : FactorySpec)
  | asyncSingletonFactoryP (t : Ty) (f : FactorySpec)
  | asyncArgsTypeP (t : Ty) (deps : List PId)
  | asyncArgsTypeExplicitP (t : Ty) (deps : List PId)
  | asyncScopedArgsTypeP (t : Ty) (deps : List PId)
  | asyncScopedArgsTypeExplicitP (t : Ty) (deps : List PId)
  | asyncSingletonTypeP (t : Ty) (deps : List PId)
  | asyncSingletonTypeExplicitP (t : Ty) (deps : List PId)
deriving DecidableEq, Repr

/-- Test `iscoroutinefunction(provider.__call__)`: true exactly for the
async provider variants. -/
def isAsyncDesc : ProviderDesc → Bool
  | .asyncFactoryP _ _ | .asyncScopedFactoryP _ _ | .asyncSingletonFactoryP _ _
  | .asyncArgsTypeP _ _ | .asyncArgsTypeExplicitP _ _
  | .asyncScopedArgsTypeP _ _ | .asyncScopedArgsTypeExplicitP _ _
  | .asyncSingletonTypeP _ _ | .asyncSingletonTypeExplicitP _ _ => true
  | _ => false

/-- State of one `build_provider` pass: the provider heap, the
`ResolutionContext.resolved` memo and the `dynamic_chain`. -/
structure BuildSt where
  heap : List ProviderDesc
  resolved : List (Ty × PId)
  chain : List Ty
deriving DecidableEq, Repr

/-- Allocate a fresh provider object. -/
def allocP (d : ProviderDesc) (bst : BuildSt) : PId × BuildSt :=
  (bst.heap.length, { bst with heap := bst.heap ++ [d] })

/-- Provider object at a heap index (indices are always in range in the
modelled runs). -/
def descAt (heap : List ProviderDesc) (p : PId) : ProviderDesc :=
  heap.getD p (.typeP 0)

/-- Method `FactoryResolver.__call__`: dispatch on the factory kind and the
lifestyle (generator factories are outside the modelled fragment). -/
def factoryResolverCall (t : Ty) (f : FactorySpec) (ls : LifeStyle)
    (bst : BuildSt) : PId × BuildSt :=
  match f.kind, ls with
  | .coroutine, .singleton => allocP (.asyncSingletonFactoryP t f) bst
  | .coroutine, .scoped => allocP (.asyncScopedFactoryP t f) bst
  | .coroutine, .transient => allocP (.asyncFactoryP t f) bst
  | .plain, .singleton => allocP (.singletonFactoryP t f) bst
  | .plain, .scoped => allocP (.scopedFactoryP t f) bst
  | .plain, .transient => allocP (.factoryP t f) bst

/-- Provider for a type whose `__init__` takes only `self`
(`SingletonTypeProvider` / `ScopedTypeProvider` / `TypeProvider`). -/
def trivialProvider (ls : LifeStyle) (t : Ty) : ProviderDesc :=
  match ls with
  | .singleton => .singletonTypeP t
  | .scoped => .scopedTypeP t
  | .transient => .typeP t

/-- Provider selection at the end of `_resolve_by_init_method`: classify
the parameter resolvers as all-async / mixed / sync and pick the variant
for the lifestyle. -/
def argsProvider (ls : LifeStyle) (isAsync isAllAsync : Bool) (t : Ty)
    (fns : List PId) : ProviderDesc :=
  if isAllAsync then
    match ls with
    | .singleton => .asyncSingletonTypeExplicitP t fns
    | .scoped => .asyncScopedArgsTypeExplicitP t fns
    | .transient => .asyncArgsTypeExplicitP t fns
  else if isAsync then
    match ls with
    | .singleton => .asyncSingletonTypeP t fns
    | .scoped => .asyncScopedArgsTypeP t fns
    | .transient => .asyncArgsTypeP t fns
  else
    match ls with
    | .singleton => .singletonArgsTypeP t fns
    | .scoped => .scopedArgsTypeP t fns
    | .transient => .argsTypeP t fns

/-- Predicate `is_union` from `rodi/common.py` on a declared annotation value. -/
def isUnionAnn : Ann → Bool
  | .union _ => true
  | _ => false

/-- The pending operations of the recursive provider-building walk.
Each constructor is one of the mutually recursive Python functions:
`rcall` a resolver's `__call__(context)`, `rdyn` is
`DynamicResolver.__call__`, `rinit` is `_resolve_by_init_method`,
`rparams` is the loop of `_get_resolvers_for_parameters` (with its
accumulators), `rgetres` is `_get_resolver`, and `ranns` is
`_resolve_by_annotations`. -/
inductive BTask where
  | rcall (r : Resolver)
  | rdyn (t : Ty) (ls : LifeStyle)
  | rinit (t : Ty) (ls : LifeStyle) (params : List (String × Ann))
  | rparams (t : Ty) (params : List (String × Ann)) (fns : List PId)
      (isAsync : Bool) (isAllAsync : Bool)
  | rgetres (t' : Ty)
  | ranns (t : Ty) (ls : LifeStyle)
deriving DecidableEq, Repr

/-- Result of a build task: a provider, or the accumulator triple of
`_get_resolvers_for_parameters`. -/
inductive BOut where
  | pid (p : PId)
  | fns (ps : List PId) (isAsync : Bool) (isAllAsync : Bool)
deriving DecidableEq, Repr

/-- One engine for the mutually recursive build walk, structural in the
call-depth budget: every nested Python call costs one unit, and a call
attempted with no budget left raises `RecursionError`, exactly the
resource-exhaustion signal `DynamicResolver.__call__` converts into
`CircularDependencyException(chain[0], concrete_type)` at the innermost
frame that still has a live `except RecursionError` handler. -/
def buildStep (Γ : ClassTable) (c : Container) :
    Nat → BTask → BuildSt → Except Err (BOut × BuildSt)
  | 0, _, _ => .error .recursionError
  | fuel + 1, .rcall r, bst =>
      match r with
      | .dynamic t ls => buildStep Γ c fuel (.rdyn t ls) bst
      | .factory rt f ls =>
          let (p, bst) := factoryResolverCall rt f ls bst
          .ok (.pid p, bst)
      | .instanceR v =>
          let (p, bst) := allocP (.instanceP v) bst
          .ok (.pid p, bst)
  | fuel + 1, .rdyn t ls, bst =>
      let bst := { bst with chain := bst.chain ++ [t] }
      let entry := bst.chain.headD t
      match (Γ t).init with
      | some params =>
          match buildStep Γ c fuel (.rinit t ls params) bst with
          | .error .recursionError => .error (.circularDependency entry t)
          | r => r
      | none =>
          if (Γ t).anns ≠ [] then
            match buildStep Γ c fuel (.ranns t ls) bst with
            | .error .recursionError => .error (.circularDependency entry t)
            | r => r
          else
            let (p, bst) :=
              factoryResolverCall t ⟨.plain, .newObj t⟩ ls bst
            .ok (.pid p, bst)
  | fuel + 1, .rinit t ls params, bst =>
      match params with
      | [(pname, _)] =>
          if pname = "self" then
            let (p, bst) := allocP (trivialProvider ls t) bst
            .ok (.pid p, bst)
          else
            match buildStep Γ c fuel (.rparams t params [] false true) bst with
            | .ok (.fns fns isA isAA, bst) =>
                let (p, bst) := allocP (argsProvider ls isA isAA t fns) bst
                .ok (.pid p, bst)
            | .ok (.pid _, _) => .error .invalidProvider
            | .error e => .error e
      | _ =>
          match buildStep Γ c fuel (.rparams t params [] false true) bst with
          | .ok (.fns fns isA isAA, bst) =>
              let (p, bst) := allocP (argsProvider ls isA isAA t fns) bst
              .ok (.pid p, bst)
          | .ok (.pid _, _) => .error .invalidProvider
          | .error e => .error e
  | fuel + 1, .rparams t params fns isA isAA, bst =>
      match params with
      | [] => .ok (.fns fns isA isAA, bst)
      | (pname, ann) :: rest =>
          if pname = "self" || pname = "args" || pname = "kwargs" then
            buildStep Γ c fuel (.rparams t rest fns isA isAA) bst
          else if isUnionAnn ann then .error (.unsupportedUnion pname t)
          else
            let pt : Except Err Ann :=
              match ann with
              | .empty =>
                  if c.strict then .error (.cannotResolveParameter pname t)
                  else
                    match alookup c.exactAliases pname with
                    | some ta => .ok (.ty ta)
                    | none =>
                        match (alookup c.aliases pname).getD [] with
                        | [] => .ok .empty
                        | [ta] => .ok (.ty ta)
                        | _ :: _ :: _ =>
                            .error (.assertionError
                              "Configured aliases cannot be ambiguous")
              | other => .ok other
            match pt with
            | .error e => .error e
            | .ok (.ty t') =>
                if hasKey c.map t' then
                  match buildStep Γ c fuel (.rgetres t') bst with
                  | .ok (.pid p, bst) =>
                      let a := isAsyncDesc (descAt bst.heap p)
                      buildStep Γ c fuel
                        (.rparams t rest (fns ++ [p]) (isA || a) (isAA && a)) bst
                  | .ok (.fns _ _ _, _) => .error .invalidProvider
                  | .error e => .error e
                else .error (.cannotResolveParameter pname t)
            | .ok _ => .error (.cannotResolveParameter pname t)
  | fuel + 1, .rgetres t', bst =>
      match alookup bst.resolved t' with
      | some p => .ok (.pid p, bst)
      | none =>
          match alookup c.map t' with
          | none =>
              .error (.assertionError "A resolver for the type is not configured")
          | some reg =>
              match buildStep Γ c fuel (.rcall reg) bst with
              | .ok (.pid p, bst) =>
                  .ok (.pid p, { bst with resolved := ainsert bst.resolved t' p })
              | .ok (.fns _ _ _, _) => .error .invalidProvider
              | .error e => .error e
  | fuel + 1, .ranns t ls, bst =>
      match buildStep Γ c fuel (.rparams t (Γ t).anns [] false true) bst with
      | .ok (.fns fns _ _, bst) =>
          let names := ((Γ t).anns.map Prod.fst).zip fns
          let kind : FactoryKind :=
            if fns ≠ [] && fns.all (fun p => isAsyncDesc (descAt bst.heap p)) then
              .coroutine
            else if fns.any (fun p => isAsyncDesc (descAt bst.heap p)) then
              .coroutine
            else .plain
          let (p, bst) :=
            factoryResolverCall t ⟨kind, .fieldsInit t names⟩ ls bst
          .ok (.pid p, bst)
      | .ok (.pid _, _) => .error .invalidProvider
      | .error e => .error e

/-- The compiled `Services`: the key-to-provider map handed to the
runtime facade together with the provider heap it indexes into. -/
structure Services where
  map : List (Key × PId)
  heap : List ProviderDesc
deriving DecidableEq, Repr

/-- After compiling one binding, `build_provider` stores the provider
under the type key and, when the class name is unqualified, under the
bare class-name string as well. -/
def bindInto (Γ : ClassTable) (t : Ty) (p : PId) (m : List (Key × PId)) :
    List (Key × PId) :=
  let m := ainsert m (.ty t) p
  let name := class_name Γ t
  if containsDot name then m else ainsert m (.str name) p

/-- The binding loop of `build_provider`: clear the dynamic chain for
each `DynamicResolver`, reuse a provider memoised by an earlier
binding's recursive walk (failing when the type key is already in the
output map), otherwise run the resolver and memoise the result. -/
def buildLoop (Γ : ClassTable) (c : Container) (fuel : Nat) :
    List (Ty × Resolver) → List (Key × PId) → BuildSt →
    Except Err (List (Key × PId) × BuildSt)
  | [], m, bst => .ok (m, bst)
  | (t, r) :: rest, m, bst =>
      let bst :=
        match r with
        | .dynamic _ _ => { bst with chain := [] }
        | _ => bst
      match alookup bst.resolved t with
      | some p =>
          if hasKey m (.ty t) then .error .overridingService
          else buildLoop Γ c fuel rest (bindInto Γ t p m) bst
      | none =>
          match buildStep Γ c fuel (.rcall r) bst with
          | .ok (.pid p, bst) =>
              buildLoop Γ c fuel rest (bindInto Γ t p m)
                { bst with resolved := ainsert bst.resolved t p }
          | .ok (.fns _ _ _, _) => .error .invalidProvider
          | .error e => .error e

/-- Method `_get_alias_target_type`: the provider of the candidate type, or an
alias-configuration error when there is no candidate or it is unbound. -/
def aliasTarget (m : List (Key × PId)) (name : String) (t? : Option Ty) :
    Except Err PId :=
  match t? with
  | none => .error (.aliasConfigurationError name)
  | some t =>
      match alookup m (.ty t) with
      | some p => .ok p
      | none => .error (.aliasConfigurationError name)

/-- The implicit-alias loop of `build_provider`: each alias name maps to
the provider of `next(iter(candidates), None)` - an arbitrary (first in
the modelled set order) candidate. -/
def aliasLoop (m : List (Key × PId)) :
    List (String × List Ty) → Except Err (List (Key × PId))
  | [] => .ok m
  | (name, ts) :: rest =>
      match aliasTarget m name ts.head? with
      | .ok p => aliasLoop (ainsert m (.str name) p) rest
      | .error e => .error e

/-- The exact-alias loop of `build_provider`. -/
def exactAliasLoop (m : List (Key × PId)) :
    List (String × Ty) → Except Err (List (Key × PId))
  | [] => .ok m
  | (name, t) :: rest =>
      match aliasTarget m name (some t) with
      | .ok p => exactAliasLoop (ainsert m (.str name) p) rest
      | .error e => .error e

/-- Method `Container.build_provider`: open one resolution context, compile
every binding, then (outside strict mode) materialise the implicit and
exact aliases. -/
def build_provider (Γ : ClassTable) (c : Container) (fuel : Nat) :
    Except Err Services :=
  match buildLoop Γ c fuel c.map [] ⟨[], [], []⟩ with
  | .error e => .error e
  | .ok (m, bst) =>
      if c.strict then .ok ⟨m, bst.heap⟩
      else
        match aliasLoop m c.aliases with
        | .error e => .error e
        | .ok m =>
            match exactAliasLoop m c.exactAliases with
            | .error e => .error e
            | .ok m => .ok ⟨m, bst.heap⟩

/-- The `ActivationScope` as far as resolution uses it: the
`scoped_services` cache.  The cleanup stacks (resource disposal) are
outside the modelled fragment. -/
structure Scope where
  scopedServices : List (Key × Value)
deriving DecidableEq, Repr

/-- A fresh throwaway scope (`ActivationScope(self)` in `Services.get`). -/
def Scope.empty : Scope := ⟨[]⟩

/-- Mutable runtime state shared across resolutions: the `_instance` /
`instance` cells of singleton providers (absent cell = Python `None`),
the allocation counter and log for constructed instances (identity,
class, constructor arguments), the log of user-factory executions (one
entry per run, tagged by provider), and the log of property-injection
assignments. -/
structure RTState where
  cells : List (PId × Value)
  nextObj : Nat
  allocs : List (Nat × Ty × List Value)
  facRuns : List PId
  fieldSets : List (Nat × String × Value)
deriving DecidableEq, Repr

/-- The initial runtime state. -/
def rt0 : RTState := ⟨[], 0, [], [], []⟩

/-- Construction `self._type(*args)`: construct an instance with a fresh identity and
record the construction. -/
def construct (t : Ty) (args : List Value) (st : RTState) : Value × RTState :=
  (.obj t st.nextObj,
    { st with
      nextObj := st.nextObj + 1
      allocs := st.allocs ++ [(st.nextObj, t, args)] })

/-- The singleton cell of a provider (`self._instance` / `self.instance`,
initially `None`). -/
def cellOf (st : RTState) (p : PId) : Value :=
  (alookup st.cells p).getD .vnone

/-- Pending runtime operations: `call` is a provider's synchronous
`__call__`, `arun` executes the body of the coroutine an async provider
returned, `deps` is the synchronous argument comprehension, `depsAwait`
resolves arguments awaiting each awaitable result (mixed variants),
`depsAwaitAll` awaits every result (the `Explicit` variants), and `fac`
runs a user factory body. -/
inductive RTask where
  | call (p : PId)
  | arun (p : PId)
  | deps (ps : List PId)
  | depsAwait (ps : List PId)
  | depsAwaitAll (ps : List PId)
  | fac (fb : FactoryBody) (p : PId)
deriving DecidableEq, Repr

/-- Result of a runtime task: one value, or the list of resolved
constructor arguments. -/
inductive ROut where
  | one (v : Value)
  | many (vs : List Value)
deriving DecidableEq, Repr

/-- One engine for provider invocation, structural in a call budget
(ample in every modelled scenario).  Each branch mirrors the `__call__`
of the corresponding provider class in `rodi/providers/*.py`; singleton
providers test their cell against `None` (`is None`), scoped providers
test key *presence* in `scope.scoped_services`; calling an async
provider synchronously yields the coroutine value, `arun` executes it. -/
def invokeStep (heap : List ProviderDesc) :
    Nat → RTask → Scope → RTState → Except Err (ROut × Scope × RTState)
  | 0, _, _, _ => .error .outOfFuel
  | fuel + 1, .call p, sc, st =>
      match descAt heap p with
      | .instanceP v => .ok (.one v, sc, st)
      | .typeP t =>
          let (v, st) := construct t [] st
          .ok (.one v, sc, st)
      | .argsTypeP t deps =>
          match invokeStep heap fuel (.deps deps) sc st with
          | .ok (.many vs, sc, st) =>
              let (v, st) := construct t vs st
              .ok (.one v, sc, st)
          | .ok (.one _, _, _) => .error .invalidProvider
          | .error e => .error e
      | .scopedTypeP t =>
          match alookup sc.scopedServices (.ty t) with
          | some v => .ok (.one v, sc, st)
          | none =>
              let (v, st) := construct t [] st
              .ok (.one v, ⟨ainsert sc.scopedServices (.ty t) v⟩, st)
      | .scopedArgsTypeP t deps =>
          match alookup sc.scopedServices (.ty t) with
          | some v => .ok (.one v, sc, st)
          | none =>
              match invokeStep heap fuel (.deps deps) sc st with
              | .ok (.many vs, sc, st) =>
                  let (v, st) := construct t vs st
                  .ok (.one v, ⟨ainsert sc.scopedServices (.ty t) v⟩, st)
              | .ok (.one _, _, _) => .error .invalidProvider
              | .error e => .error e
      | .singletonTypeP t =>
          if cellOf st p ≠ .vnone then .ok (.one (cellOf st p), sc, st)
          else
            let (v, st) := construct t [] st
            .ok (.one v, sc, { st with cells := ainsert st.cells p v })
      | .singletonArgsTypeP t deps =>
          if cellOf st p ≠ .vnone then .ok (.one (cellOf st p), sc, st)
          else if deps = [] then
            let (v, st) := construct t [] st
            .ok (.one v, sc, { st with cells := ainsert st.cells p v })
          else
            match invokeStep heap fuel (.deps deps) sc st with
            | .ok (.many vs, sc, st) =>
                let (v, st) := construct t vs st
                .ok (.one v, sc, { st with cells := ainsert st.cells p v })
            | .ok (.one _, _, _) => .error .invalidProvider
            | .error e => .error e
      | .factoryP _ f => invokeStep heap fuel (.fac f.body p) sc st
      | .scopedFactoryP t f =>
          match alookup sc.scopedServices (.ty t) with
          | some v => .ok (.one v, sc, st)
          | none =>
              match invokeStep heap fuel (.fac f.body p) sc st with
              | .ok (.one v, sc, st) =>
                  .ok (.one v, ⟨ainsert sc.scopedServices (.ty t) v⟩, st)
              | .ok (.many _, _, _) => .error .invalidProvider
              | .error e => .error e
      | .singletonFactoryP _ f =>
          if cellOf st p ≠ .vnone then .ok (.one (cellOf st p), sc, st)
          else
            match invokeStep heap fuel (.fac f.body p) sc st with
            | .ok (.one v, sc, st) =>
                .ok (.one v, sc, { st with cells := ainsert st.cells p v })
            | .ok (.many _, _, _) => .error .invalidProvider
            | .error e => .error e
      | _ => .ok (.one (.coro p), sc, st)
  | fuel + 1, .arun p, sc, st =>
      match descAt heap p with
      | .asyncFactoryP _ f => invokeStep heap fuel (.fac f.body p) sc st
      | .asyncScopedFactoryP t f =>
          match alookup sc.scopedServices (.ty t) with
          | some v => .ok (.one v, sc, st)
          | none =>
              match invokeStep heap fuel (.fac f.body p) sc st with
              | .ok (.one v, sc, st) =>
                  .ok (.one v, ⟨ainsert sc.scopedServices (.ty t) v⟩, st)
              | .ok (.many _, _, _) => .error .invalidProvider
              | .error e => .error e
      | .asyncSingletonFactoryP _ f =>
          if cellOf st p ≠ .vnone then .ok (.one (cellOf st p), sc, st)
          else
            match invokeStep heap fuel (.fac f.body p) sc st with
            | .ok (.one v, sc, st) =>
                .ok (.one v, sc, { st with cells := ainsert st.cells p v })
            | .ok (.many _, _, _) => .error .invalidProvider
            | .error e => .error e
      | .asyncArgsTypeP t deps =>
          match invokeStep heap fuel (.depsAwait deps) sc st with
          | .ok (.many vs, sc, st) =>
              let (v, st) := construct t vs st
              .ok (.one v, sc, st)
          | .ok (.one _, _, _) => .error .invalidProvider
          | .error e => .error e
      | .asyncArgsTypeExplicitP t deps =>
          match invokeStep heap fuel (.depsAwaitAll deps) sc st with
          | .ok (.many vs, sc, st) =>
              let (v, st) := construct t vs st
              .ok (.one v, sc, st)
          | .ok (.one _, _, _) => .error .invalidProvider
          | .error e => .error e
      | .asyncScopedArgsTypeP t deps =>
          match alookup sc.scopedServices (.ty t) with
          | some v => .ok (.one v, sc, st)
          | none =>
              match invokeStep heap fuel (.depsAwait deps) sc st with
              | .ok (.many vs, sc, st) =>
                  let (v, st) := construct t vs st
                  .ok (.one v, ⟨ainsert sc.scopedServices (.ty t) v⟩, st)
              | .ok (.one _, _, _) => .error .invalidProvider
              | .error e => .error e
      | .asyncScopedArgsTypeExplicitP t deps =>
          match alookup sc.scopedServices (.ty t) with
          | some v => .ok (.one v, sc, st)
          | none =>
              match invokeStep heap fuel (.depsAwaitAll deps) sc st with
              | .ok (.many vs, sc, st) =>
                  let (v, st) := construct t vs st
                  .ok (.one v, ⟨ainsert sc.scopedServices (.ty t) v⟩, st)
              | .ok (.one _, _, _) => .error .invalidProvider
              | .error e => .error e
      | .asyncSingletonTypeP t deps =>
          if cellOf st p ≠ .vnone then .ok (.one (cellOf st p), sc, st)
          else
            match invokeStep heap fuel (.depsAwait deps) sc st with
            | .ok (.many vs, sc, st) =>
                let (v, st) := construct t vs st
                .ok (.one v, sc, { st with cells := ainsert st.cells p v })
            | .ok (.one _, _, _) => .error .invalidProvider
            | .error e => .error e
      | .asyncSingletonTypeExplicitP t deps =>
          if cellOf st p ≠ .vnone then .ok (.one (cellOf st p), sc, st)
          else
            match invokeStep heap fuel (.depsAwaitAll deps) sc st with
            | .ok (.many vs, sc, st) =>
                let (v, st) := construct t vs st
                .ok (.one v, sc, { st with cells := ainsert st.cells p v })
            | .ok (.one _, _, _) => .error .invalidProvider
            | .error e => .error e
      | _ => .error .notAwaitable
  | _ + 1, .deps [], sc, st => .ok (.many [], sc, st)
  | fuel + 1, .deps (p :: ps), sc, st =>
      match invokeStep heap fuel (.call p) sc st with
      | .ok (.one v, sc, st) =>
          match invokeStep heap fuel (.deps ps) sc st with
          | .ok (.many vs, sc, st) => .ok (.many (v :: vs), sc, st)
          | .ok (.one _, _, _) => .error .invalidProvider
          | .error e => .error e
      | .ok (.many _, _, _) => .error .invalidProvider
      | .error e => .error e
  | _ + 1, .depsAwait [], sc, st => .ok (.many [], sc, st)
  | fuel + 1, .depsAwait (p :: ps), sc, st =>
      match invokeStep heap fuel (.call p) sc st with
      | .ok (.one (.coro q), sc, st) =>
          match invokeStep heap fuel (.arun q) sc st with
          | .ok (.one w, sc, st) =>
              match invokeStep heap fuel (.depsAwait ps) sc st with
              | .ok (.many vs, sc, st) => .ok (.many (w :: vs), sc, st)
              | .ok (.one _, _, _) => .error .invalidProvider
              | .error e => .error e
          | .ok (.many _, _, _) => .error .invalidProvider
          | .error e => .error e
      | .ok (.one v, sc, st) =>
          match invokeStep heap fuel (.depsAwait ps) sc st with
          | .ok (.many vs, sc, st) => .ok (.many (v :: vs), sc, st)
          | .ok (.one _, _, _) => .error .invalidProvider
          | .error e => .error e
      | .ok (.many _, _, _) => .error .invalidProvider
      | .error e => .error e
  | _ + 1, .depsAwaitAll [], sc, st => .ok (.many [], sc, st)
  | fuel + 1, .depsAwaitAll (p :: ps), sc, st =>
      match invokeStep heap fuel (.call p) sc st with
      | .ok (.one v, sc, st) =>
          match v with
          | .coro q =>
              match invokeStep heap fuel (.arun q) sc st with
              | .ok (.one w, sc, st) =>
                  match invokeStep heap fuel (.depsAwaitAll ps) sc st with
                  | .ok (.many vs, sc, st) => .ok (.many (w :: vs), sc, st)
                  | .ok (.one _, _, _) => .error .invalidProvider
                  | .error e => .error e
              | .ok (.many _, _, _) => .error .invalidProvider
              | .error e => .error e
          | _ => .error .notAwaitable
      | .ok (.many _, _, _) => .error .invalidProvider
      | .error e => .error e
  | fuel + 1, .fac fb p, sc, st =>
      let st := { st with facRuns := st.facRuns ++ [p] }
      match fb with
      | .newObj t =>
          let (v, st) := construct t [] st
          .ok (.one v, sc, st)
      | .retNone => .ok (.one .vnone, sc, st)
      | .retVal v => .ok (.one v, sc, st)
      | .fieldsInit t fields =>
          let instId := st.nextObj
          let (inst, st) := construct t [] st
          match invokeStep heap fuel (.depsAwait (fields.map Prod.snd)) sc st with
          | .ok (.many vs, sc, st) =>
              .ok (.one inst, sc,
                { st with
                  fieldSets := st.fieldSets ++
                    ((fields.map Prod.fst).zip vs).map
                      (fun nv => (instId, nv.1, nv.2)) })
          | .ok (.one _, _, _) => .error .invalidProvider
          | .error e => .error e

/-- Method `Services.get`: default to a fresh throwaway scope, consult the
scope's scoped-services cache by *truthiness*, then the provider map,
then the supplied default, else fail.  The returned scope and runtime
state render the mutations the Python call performs on the shared
objects. -/
def Services.get (s : Services) (fuel : Nat) (key : Key)
    (scope : Option Scope) (dflt : Option Value) (st : RTState) :
    Except Err (Value × Scope × RTState) :=
  let sc := scope.getD Scope.empty
  let scopedService := (alookup sc.scopedServices key).getD .vnone
  if truthy scopedService then .ok (scopedService, sc, st)
  else
    match alookup s.map key with
    | some p =>
        match invokeStep s.heap fuel (.call p) sc st with
        | .ok (.one v, sc, st) => .ok (v, sc, st)
        | .ok (.many _, _, _) => .error .invalidProvider
        | .error e => .error e
    | none =>
        match dflt with
        | some d => .ok (d, sc, st)
        | none => .error (.cannotResolve key)

/-- Method `Services.aget`: same lookup as `get`; when the result is awaitable
(a coroutine value), await it by running the async body. -/
def Services.aget (s : Services) (fuel : Nat) (key : Key)
    (scope : Option Scope) (dflt : Option Value) (st : RTState) :
    Except Err (Value × Scope × RTState) :=
  match s.get fuel key scope dflt st with
  | .ok (.coro q, sc, st) =>
      match invokeStep s.heap fuel (.arun q) sc st with
      | .ok (.one v, sc, st) => .ok (v, sc, st)
      | .ok (.many _, _, _) => .error .invalidProvider
      | .error e => .error e
  | r => r

/-- Run a sequence of `get` requests, each with a fresh throwaway scope
(the `Container.resolve` call path), threading the runtime state. -/
def runReqs (s : Services) (fuel : Nat) :
    List Key → RTState → List (Except Err Value) × RTState
  | [], st => ([], st)
  | k :: ks, st =>
      match s.get fuel k none none st with
      | .ok (v, _, st) =>
          let (outs, st) := runReqs s fuel ks st
          (.ok v :: outs, st)
      | .error e =>
          let (outs, st) := runReqs s fuel ks st
          (.error e :: outs, st)

/-- Run a sequence of `get` requests against one shared activation
scope. -/
def runScope (s : Services) (fuel : Nat) :
    List Key → Scope → RTState → List (Except Err Value) × Scope × RTState
  | [], sc, st => ([], sc, st)
  | k :: ks, sc, st =>
      match s.get fuel k (some sc) none st with
      | .ok (v, sc, st) =>
          let (outs, sc, st) := runScope s fuel ks sc st
          (.ok v :: outs, sc, st)
      | .error e =>
          let (outs, sc, st) := runScope s fuel ks sc st
          (.error e :: outs, sc, st)

/-- Run request groups, one fresh activation scope per group, threading
the runtime state across groups. -/
def runScopes (s : Services) (fuel : Nat) :
    List (List Key) → RTState → List (List (Except Err Value)) × RTState
  | [], st => ([], st)
  | ks :: kss, st =>
      let (outs, _, st) := runScope s fuel ks Scope.empty st
      let (outss, st) := runScopes s fuel kss st
      (outs :: outss, st)

/-- Run `n` successive `aget` requests for one key, each with a fresh
throwaway scope. -/
def runAgets (s : Services) (fuel : Nat) (key : Key) :
    Nat → RTState → List (Except Err Value) × RTState
  | 0, st => ([], st)
  | n + 1, st =>
      match s.aget fuel key none none st with
      | .ok (v, _, st) =>
          let (outs, st) := runAgets s fuel key n st
          (.ok v :: outs, st)
      | .error e =>
          let (outs, st) := runAgets s fuel key n st
          (.error e :: outs, st)

/-- The instances of one class recorded in the allocation log. -/
def allocsOf (t : Ty) (st : RTState) : List (Nat × Ty × List Value) :=
  st.allocs.filter (fun a => a.2.1 = t)

/-! ### Scenario: two mutually dependent classes (circular graph)

`A.__init__(self, b: B)` and `B.__init__(self, a: A)`, both registered
as concrete transient types in a strict container. -/

/-- Type identity used as class `A` of the scenarios. -/
def tyA : Ty := 0

/-- Type identity used as class `B` of the scenarios. -/
def tyB : Ty := 1

/-- Oracle for the circular scenario. -/
def gammaCycle : ClassTable := fun t =>
  if t = tyA then ⟨"A", some [("self", .empty), ("b", .ty tyB)], []⟩
  else ⟨"B", some [("self", .empty), ("a", .ty tyA)], []⟩

/-- Strict container with the two mutually dependent bindings. -/
def cCycle : Container :=
  ⟨[(tyA, .dynamic tyA .transient), (tyB, .dynamic tyB .transient)],
    [], [], true⟩

/-! ### Scenario: `A` depends on `B` by exact declared type

`A.__init__(self, b: B)`, `B.__init__(self)`; both bound with the same
lifestyle in a strict container. -/

/-- Oracle for the `A` depends on `B` scenario. -/
def gammaAB : ClassTable := fun t =>
  if t = tyA then ⟨"A", some [("self", .empty), ("b", .ty tyB)], []⟩
  else ⟨"B", some [("self", .empty)], []⟩

/-- Both classes bound with one lifestyle, strict container. -/
def cAB (ls : LifeStyle) : Container :=
  ⟨[(tyA, .dynamic tyA ls), (tyB, .dynamic tyB ls)], [], [], true⟩

/-- The services compiled from `cAB ls`: `B`'s trivial provider is built
first (while resolving `A`'s dependency) and memoised, then reused for
`B`'s own binding. -/
def servicesAB (ls : LifeStyle) : Services :=
  ⟨[(.ty tyA, 1), (.str "A", 1), (.ty tyB, 0), (.str "B", 0)],
    [trivialProvider ls tyB,
      argsProvider ls false false tyA [0]]⟩

/-- Request alphabet for the `A`/`B` scenarios: `true` resolves `A`,
`false` resolves `B`. -/
def reqKeysAB (reqs : List Bool) : List Key :=
  reqs.map (fun b => if b then .ty tyA else .ty tyB)

/-- Expected per-request results when both classes are singletons: the
one `B` ever constructed has identity 0, the one `A` identity 1,
whatever the request order. -/
def singOut (b : Bool) : Except Err Value :=
  if b then .ok (.obj tyA 1) else .ok (.obj tyB 0)

/-- Runtime state after the singleton scenario ran at least one request
that touched `A` (one cached `B`, one cached `A`). -/
def singStAB : RTState :=
  ⟨[(0, .obj tyB 0), (1, .obj tyA 1)], 2,
    [(0, tyB, []), (1, tyA, [.obj tyB 0])], [], []⟩

/-- Runtime state after the singleton scenario ran only `B` requests. -/
def singStB : RTState :=
  ⟨[(0, .obj tyB 0)], 1, [(0, tyB, [])], [], []⟩

/-- Expected outputs of one scoped activation scope whose first
construction happens at object counter `n`: the scope's `B` has
identity `n`, its `A` identity `n + 1`. -/
def scopedOuts (n : Nat) (reqs : List Bool) : List (Except Err Value) :=
  reqs.map (fun b => if b then .ok (.obj tyA (n + 1)) else .ok (.obj tyB n))

/-- Object counter after one scoped activation scope. -/
def scopedNext (n : Nat) (reqs : List Bool) : Nat :=
  if reqs = [] then n else if true ∈ reqs then n + 2 else n + 1

/-- Allocations performed by one scoped activation scope. -/
def scopedAllocs (n : Nat) (reqs : List Bool) : List (Nat × Ty × List Value) :=
  if reqs = [] then []
  else if true ∈ reqs then [(n, tyB, []), (n + 1, tyA, [.obj tyB n])]
  else [(n, tyB, [])]

/-- Straight-line model of the scoped scenario over scope groups. -/
def scopedModel : List (List Bool) → Nat → List (List (Except Err Value)) × Nat
  | [], n => ([], n)
  | rs :: rss, n =>
      let (outss, m) := scopedModel rss (scopedNext n rs)
      (scopedOuts n rs :: outss, m)

/-- Allocation log of the scoped scenario over scope groups. -/
def scopedAllAllocs : List (List Bool) → Nat → List (Nat × Ty × List Value)
  | [], _ => []
  | rs :: rss, n => scopedAllocs n rs ++ scopedAllAllocs rss (scopedNext n rs)

/-- The identity of the `B` instance of each nonempty scope group. -/
def scopedBIds : List (List Bool) → Nat → List Nat
  | [], _ => []
  | rs :: rss, n =>
      if rs = [] then scopedBIds rss n
      else n :: scopedBIds rss (scopedNext n rs)

/-- Straight-line model of the transient scenario: every request
constructs a fresh `B` (and a fresh `A` for `A`-requests). -/
def transModel : List Bool → Nat → List (Except Err Value) × Nat
  | [], n => ([], n)
  | b :: bs, n =>
      if b then
        let (outs, m) := transModel bs (n + 2)
        (.ok (.obj tyA (n + 1)) :: outs, m)
      else
        let (outs, m) := transModel bs (n + 1)
        (.ok (.obj tyB n) :: outs, m)

/-- Allocation log of the transient scenario. -/
def transAllocs : List Bool → Nat → List (Nat × Ty × List Value)
  | [], _ => []
  | b :: bs, n =>
      if b then (n, tyB, []) :: (n + 1, tyA, [.obj tyB n]) :: transAllocs bs (n + 2)
      else (n, tyB, []) :: transAllocs bs (n + 1)

/-! ### Scenario: a single trivial class (for `Services.get` lookups) -/

/-- Oracle with one trivial class `T`. -/
def gammaT : ClassTable := fun _ => ⟨"T", some [("self", .empty)], []⟩

/-- Strict container binding `T` transiently. -/
def cT : Container := ⟨[(tyA, .dynamic tyA .transient)], [], [], true⟩

/-- The services compiled from `cT`. -/
def servicesT : Services := ⟨[(.ty tyA, 0), (.str "T", 0)], [.typeP tyA]⟩

/-! ### Scenario: user factories bound as singleton / scoped -/

/-- Type identity returned by the factories. -/
def tyF : Ty := 7

/-- Oracle for the factory scenarios (the factory's return class). -/
def gammaF : ClassTable := fun _ => ⟨"F", none, []⟩

/-- A synchronous factory that returns `None`, bound as singleton. -/
def cFacNone : Container :=
  ⟨[(tyF, .factory tyF ⟨.plain, .retNone⟩ .singleton)], [], [], true⟩

/-- The services compiled from `cFacNone`. -/
def servicesFacNone : Services :=
  ⟨[(.ty tyF, 0), (.str "F", 0)], [.singletonFactoryP tyF ⟨.plain, .retNone⟩]⟩

/-- A synchronous factory producing a fresh instance, bound as
singleton. -/
def cFacObj : Container :=
  ⟨[(tyF, .factory tyF ⟨.plain, .newObj tyF⟩ .singleton)], [], [], true⟩

/-- The services compiled from `cFacObj`. -/
def servicesFacObj : Services :=
  ⟨[(.ty tyF, 0), (.str "F", 0)], [.singletonFactoryP tyF ⟨.plain, .newObj tyF⟩]⟩

/-- An asynchronous (coroutine) factory producing a fresh instance,
bound as singleton. -/
def cFacAsync : Container :=
  ⟨[(tyF, .factory tyF ⟨.coroutine, .newObj tyF⟩ .singleton)], [], [], true⟩

/-- The services compiled from `cFacAsync`. -/
def servicesFacAsync : Services :=
  ⟨[(.ty tyF, 0), (.str "F", 0)],
    [.asyncSingletonFactoryP tyF ⟨.coroutine, .newObj tyF⟩]⟩

/-- A synchronous factory producing a fresh instance, bound as scoped. -/
def cFacScoped : Container :=
  ⟨[(tyF, .factory tyF ⟨.plain, .newObj tyF⟩ .scoped)], [], [], true⟩

/-- The services compiled from `cFacScoped`. -/
def servicesFacScoped : Services :=
  ⟨[(.ty tyF, 0), (.str "F", 0)], [.scopedFactoryP tyF ⟨.plain, .newObj tyF⟩]⟩

/-! ### Scenario: ambiguous implicit alias

`add_alias("b", R1)` followed by binding a class named `B` makes the
implicit alias `"b"` carry two candidates; class `A` has an unannotated
parameter `b` consuming that alias. -/

/-- Type identity of class `R1`. -/
def tyR1 : Ty := 0

/-- Type identity of class `B` (lowercase alias `"b"`). -/
def tyB5 : Ty := 1

/-- Type identity of the consumer class `A`. -/
def tyA5 : Ty := 2

/-- Oracle for the ambiguous-alias scenario. -/
def gammaAmb : ClassTable := fun t =>
  if t = tyR1 then ⟨"R1", some [("self", .empty)], []⟩
  else if t = tyB5 then ⟨"B", some [("self", .empty)], []⟩
  else ⟨"A", some [("self", .empty), ("b", .empty)], []⟩

/-- Ambiguous-alias container without the consumer: the user alias
`"b" -> R1` plus the auto-registered lowercase alias of class `B`. -/
def cAmb : Container :=
  (_bind gammaAmb
    (_bind gammaAmb (add_alias Container.empty "b" tyR1).2
      tyR1 (.dynamic tyR1 .transient)).2
    tyB5 (.dynamic tyB5 .transient)).2

/-- Ambiguous-alias container with the consumer class `A` bound as
well. -/
def cAmbConsumer : Container :=
  (_bind gammaAmb cAmb tyA5 (.dynamic tyA5 .transient)).2

/-! ### Scenario: a parameter named `args` with a union annotation -/

/-- Type identity of the class with the union-annotated parameter. -/
def tyU : Ty := 0

/-- Oracle: `U.__init__(self, args: Union[...])`. -/
def gammaUArgs : ClassTable := fun _ =>
  ⟨"U", some [("self", .empty), ("args", .union [5])], []⟩

/-- Strict container binding `U` transiently. -/
def cUArgs : Container := ⟨[(tyU, .dynamic tyU .transient)], [], [], true⟩

/-- Oracle for the general union-parameter scenario: `U.__init__(self,
pname: Union[ts])`. -/
def gammaUnion (pname : String) (ts : List Ty) : ClassTable := fun _ =>
  ⟨"U", some [("self", .empty), (pname, .union ts)], []⟩

/-- Strict container binding the union-parameter class with an arbitrary
lifestyle. -/
def cUnion (ls : LifeStyle) : Container := ⟨[(tyU, .dynamic tyU ls)], [], [], true⟩

/-! ### Scenario: two classes sharing one bare class name -/

/-- Oracle where both type identities carry the class name `"Foo"`. -/
def gammaFoo : ClassTable := fun _ => ⟨"Foo", some [("self", .empty)], []⟩

/-- Strict container binding both same-named classes. -/
def cFoo : Container :=
  ⟨[(tyA, .dynamic tyA .transient), (tyB, .dynamic tyB .transient)],
    [], [], true⟩

/-- Runtime state after the first run of a singleton-bound factory that
produced a fresh instance: one cached object, one factory run. -/
def facSt1 : RTState := ⟨[(0, .obj tyF 0)], 1, [(0, tyF, [])], [0], []⟩

/-- Runtime state after the first run of a scoped-bound factory (the
cache lives in the scope, not in a provider cell). -/
def facScopedSt1 : RTState := ⟨[], 1, [(0, tyF, [])], [0], []⟩

/-- The `A` depends on `B` scenario registered in a NON-strict container
through `_bind` itself, so the implicit alias tables hold exactly the
auto-aliases (`"A"/"a" ↦ A`, `"B"/"b" ↦ B`). -/
def cABNon : Container :=
  (_bind gammaAB
    ((_bind gammaAB ⟨[], [], [], false⟩ tyA (.dynamic tyA .transient)).2)
    tyB (.dynamic tyB .transient)).2

/-- The services compiled from `cABNon`: the binding loop produces the
same map as the strict scenario, then the implicit-alias pass rewrites
`"A"`/`"B"` with the same providers and appends the lowercase names. -/
def servicesABNon : Services :=
  ⟨[(.ty tyA, 1), (.str "A", 1), (.ty tyB, 0), (.str "B", 0),
      (.str "a", 1), (.str "b", 0)],
    [trivialProvider .transient tyB,
      argsProvider .transient false false tyA [0]]⟩

/-! ## Helper lemmas -/

theorem alookup_ainsert_self {κ α : Type} [DecidableEq κ]
    (m : List (κ × α)) (k : κ) (v : α) : alookup (ainsert m k v) k = some v := by
  induction m with
  | nil => simp [ainsert, alookup]
  | cons hd tl ih =>
      obtain ⟨k', v'⟩ := hd
      by_cases h : k' = k
      · simp [ainsert, alookup, h]
      · simp [ainsert, alookup, h, ih]

theorem alookup_ainsert_ne {κ α : Type} [DecidableEq κ]
    (m : List (κ × α)) (k k' : κ) (v : α) (h : k' ≠ k) :
    alookup (ainsert m k v) k' = alookup m k' := by
  have hne : ¬ k = k' := fun hh => h hh.symm
  induction m with
  | nil => simp [ainsert, alookup, hne]
  | cons hd tl ih =>
      obtain ⟨k₀, v₀⟩ := hd
      by_cases h0 : k₀ = k
      · subst h0
        simp [ainsert, alookup, hne]
      · simp only [ainsert, if_neg h0]
        by_cases h1 : k₀ = k'
        · simp [alookup, h1]
        · simp [alookup, h1, ih]

theorem alookup_append_left {κ α : Type} [DecidableEq κ]
    (m m' : List (κ × α)) (k : κ) (v : α) (h : alookup m k = some v) :
    alookup (m ++ m') k = some v := by
  induction m with
  | nil => simp [alookup] at h
  | cons hd tl ih =>
      obtain ⟨k₀, v₀⟩ := hd
      by_cases h0 : k₀ = k
      · simp_all [alookup]
      · simp_all [alookup]

theorem hasKey_aliasAdd_self (m : List (String × List Ty)) (name : String)
    (t : Ty) : hasKey (aliasAdd m name t) name = true := by
  unfold aliasAdd
  cases hm : alookup m name with
  | some ts =>
      by_cases ht : t ∈ ts
      · simp [hasKey, hm, ht, Option.isSome]
      · simp [hasKey, ht, alookup_ainsert_self, Option.isSome]
  | none =>
      induction m with
      | nil => simp [hasKey, alookup, Option.isSome]
      | cons hd tl ih =>
          obtain ⟨k₀, v₀⟩ := hd
          by_cases h0 : k₀ = name
          · simp [alookup, h0] at hm
          · simp only [alookup, if_neg h0] at hm
            simp only [List.cons_append]
            simp [hasKey, alookup, h0] at ih ⊢
            exact ih hm

theorem hasKey_aliasAdd_mono (m : List (String × List Ty)) (name n' : String)
    (t : Ty) (h : hasKey m name = true) :
    hasKey (aliasAdd m n' t) name = true := by
  by_cases he : n' = name
  · subst he; exact hasKey_aliasAdd_self m n' t
  · unfold aliasAdd
    cases hm : alookup m n' with
    | some ts =>
        by_cases ht : t ∈ ts
        · simp [ht, h]
        · simpa [hasKey, ht, alookup_ainsert_ne _ _ _ _ (fun hh => he hh.symm)]
            using h
    | none =>
        simp only [hasKey] at h ⊢
        cases hv : alookup m name with
        | some v => simp [alookup_append_left _ _ _ _ hv]
        | none => simp [hv] at h

/-! ## Claim theorems -/

/-- C6: binding a key that is already bound fails with the
duplicate-binding error and leaves the container exactly as it was, so
the original binding keeps being used. -/
theorem bind_duplicate_fails_and_preserves (Γ : ClassTable) (c : Container)
    (k : Ty) (r0 r : Resolver) (h : alookup c.map k = some r0) :
    _bind Γ c k r = (some .overridingService, c) ∧
      alookup (_bind Γ c k r).2.map k = some r0 := by
  have hk : hasKey c.map k = true := by simp [hasKey, h]
  constructor
  · simp [_bind, hk]
  · simp [_bind, hk, h]

/-- Witness for C6 at a concrete container: rebinding the bound type of
`cT` fails and the original dynamic resolver stays in place. -/
theorem bind_duplicate_fails_and_preserves_witness :
    _bind gammaT cT tyA (.instanceR .vnone) = (some .overridingService, cT) ∧
      alookup (_bind gammaT cT tyA (.instanceR .vnone)).2.map tyA =
        some (.dynamic tyA .transient) :=
  bind_duplicate_fails_and_preserves gammaT cT tyA
    (.dynamic tyA .transient) (.instanceR .vnone) (by decide)

/-- C10: in non-strict mode, binding a concrete type whose bare name has
no dot auto-registers the exact, lowercase and snake-case forms of its
name as implicit aliases, so a later `add_alias` under any of those
names fails with the alias-already-defined error. -/
theorem bind_autoaliases_block_add_alias (Γ : ClassTable) (c : Container)
    (t : Ty) (r : Resolver) (hs : c.strict = false)
    (hd : containsDot (class_name Γ t) = false)
    (hb : (_bind Γ c t r).1 = none)
    (n : String)
    (hn : n = class_name Γ t ∨ n = pyLower (class_name Γ t) ∨
      n = to_standard_param_name (class_name Γ t)) (t' : Ty) :
    add_alias (_bind Γ c t r).2 n t' =
      (some (.aliasAlreadyDefined n), (_bind Γ c t r).2) := by
  by_cases hk : hasKey c.map t
  · simp [_bind, hk] at hb
  · have hres : (_bind Γ c t r).2 =
        { c with
          map := ainsert c.map t r
          aliases :=
            aliasAdd
              (aliasAdd (aliasAdd c.aliases (class_name Γ t) t)
                (pyLower (class_name Γ t)) t)
              (to_standard_param_name (class_name Γ t)) t } := by
      simp [_bind, hk, hs, hd]
    have halias : hasKey (_bind Γ c t r).2.aliases n = true := by
      rw [hres]
      rcases hn with hn | hn | hn <;> subst hn
      · exact hasKey_aliasAdd_mono _ _ _ _
          (hasKey_aliasAdd_mono _ _ _ _ (hasKey_aliasAdd_self _ _ _))
      · exact hasKey_aliasAdd_mono _ _ _ _ (hasKey_aliasAdd_self _ _ _)
      · exact hasKey_aliasAdd_self _ _ _
    have hstrict : (_bind Γ c t r).2.strict = false := by rw [hres]; exact hs
    simp [add_alias, hstrict, halias]

/-- Witness for C10: binding a class named `FooBar` in an empty
non-strict container blocks `add_alias` for `FooBar`, `foobar` and
`foo_bar`. -/
theorem bind_autoaliases_block_add_alias_witness :
    add_alias (_bind (fun _ => ⟨"FooBar", some [("self", .empty)], []⟩)
        Container.empty 3 (.dynamic 3 .transient)).2 "foo_bar" 9 =
      (some (.aliasAlreadyDefined "foo_bar"),
        (_bind (fun _ => ⟨"FooBar", some [("self", .empty)], []⟩)
          Container.empty 3 (.dynamic 3 .transient)).2) :=
  bind_autoaliases_block_add_alias
    (fun _ => ⟨"FooBar", some [("self", .empty)], []⟩)
    Container.empty 3 (.dynamic 3 .transient) (by decide) (by decide)
    (by decide) "foo_bar" (by right; right; decide) 9

/-- C5 counterexample: with the implicit alias `"b"` ambiguous between
`R1` and `B`, building a provider for a class whose unannotated
parameter `b` consumes that alias does *not* pick an arbitrary
candidate: the `assert len(aliases) == 1` in
`_get_resolvers_for_parameters` fails the build. -/
theorem ambiguous_alias_param_asserts :
    alookup cAmbConsumer.aliases "b" = some [tyR1, tyB5] ∧
      build_provider gammaAmb cAmbConsumer 20 =
        .error (.assertionError "Configured aliases cannot be ambiguous") := by
  decide

/-- C5 amended: the arbitrary insertion-order-dependent pick does happen
in the *alias materialisation* of `build_provider` (the map entry `"b"`
goes to the first candidate, `R1`), while the parameter-resolution path
asserts on ambiguity instead of picking. -/
theorem ambiguous_alias_build_picks_first :
    alookup cAmb.aliases "b" = some [tyR1, tyB5] ∧
      build_provider gammaAmb cAmb 20 =
        .ok ⟨[(.ty tyR1, 0), (.str "R1", 0), (.ty tyB5, 1), (.str "B", 1),
              (.str "b", 0), (.str "r1", 0)],
          [.typeP tyR1, .typeP tyB5]⟩ ∧
      alookup [((.str "b" : Key), (0 : PId)), (.str "r1", 0)] (.str "b") =
        alookup [((.ty tyR1 : Key), (0 : PId))] (.ty tyR1) := by
  decide

/-- C9 counterexample: when two bound types share the bare class name
`Foo`, the class-name string entry is overwritten by the later binding,
so `get` by the string resolves a *different* provider than `get` by the
first type: the string yields an instance of the second class. -/
theorem class_name_entry_shadowed :
    build_provider gammaFoo cFoo 20 =
      .ok ⟨[(.ty tyA, 0), (.str "Foo", 1), (.ty tyB, 1)],
        [.typeP tyA, .typeP tyB]⟩ ∧
    class_name gammaFoo tyA = "Foo" ∧ containsDot "Foo" = false ∧
    Services.get ⟨[(.ty tyA, 0), (.str "Foo", 1), (.ty tyB, 1)],
        [.typeP tyA, .typeP tyB]⟩ 20 (.str "Foo") none none rt0 =
      .ok (.obj tyB 0, Scope.empty, ⟨[], 1, [(0, tyB, [])], [], []⟩) ∧
    Services.get ⟨[(.ty tyA, 0), (.str "Foo", 1), (.ty tyB, 1)],
        [.typeP tyA, .typeP tyB]⟩ 20 (.ty tyA) none none rt0 =
      .ok (.obj tyA 0, Scope.empty, ⟨[], 1, [(0, tyA, [])], [], []⟩) := by
  decide

/-- C7 counterexample: a constructor parameter literally named `args`
with a declared union annotation is skipped by the
`param_name in ("self", "args", "kwargs")` guard *before* the union
check, so building the enclosing type's provider succeeds instead of
failing with the unsupported-union error (and, the parameter loop having
seen no parameters, the vacuous all-async classification even selects an
async provider variant). -/
theorem union_args_param_skipped :
    (gammaUArgs tyU).init = some [("self", .empty), ("args", .union [5])] ∧
      build_provider gammaUArgs cUArgs 20 =
        .ok ⟨[(.ty tyU, 0), (.str "U", 0)], [.asyncArgsTypeExplicitP tyU []]⟩ := by
  decide

/-- C7 amended: for every constructor parameter with a declared union or
optional annotation whose name is not one of the skipped names `self`,
`args`, `kwargs`, building the provider of the enclosing type fails with
the unsupported-union error naming the parameter and the concrete type,
under every lifestyle and without inspecting the union's branches. -/
theorem union_param_fails_build (pname : String) (ts : List Ty)
    (ls : LifeStyle) (fuel : Nat) (h1 : pname ≠ "self") (h2 : pname ≠ "args")
    (h3 : pname ≠ "kwargs") (h4 : 5 ≤ fuel) :
    build_provider (gammaUnion pname ts) (cUnion ls) fuel =
      .error (.unsupportedUnion pname tyU) := by
  obtain ⟨f, rfl⟩ : ∃ f, fuel = f + 5 := ⟨fuel - 5, by omega⟩
  simp [build_provider, buildLoop, buildStep, gammaUnion, cUnion, alookup,
    tyU, isUnionAnn, h1, h2, h3]

/-- Witness for C7 amended at a concrete parameter name, union payload,
lifestyle and budget. -/
theorem union_param_fails_build_witness :
    build_provider (gammaUnion "x" [5]) (cUnion .transient) 5 =
      .error (.unsupportedUnion "x" tyU) :=
  union_param_fails_build "x" [5] .transient 5 (by decide) (by decide)
    (by decide) (by decide)

/-- Provider invocation can never raise the unresolvable-key error: that
error is raised only by the direct lookup in `Services.get`. -/
theorem invokeStep_no_cannotResolve (heap : List ProviderDesc) :
    ∀ (fuel : Nat) (task : RTask) (sc : Scope) (st : RTState) (k : Key),
      invokeStep heap fuel task sc st ≠ .error (.cannotResolve k) := by
  intro fuel
  induction fuel with
  | zero => intro task sc st k h; simp [invokeStep] at h
  | succ f ih =>
      intro task sc st k h
      cases task with
      | call p =>
          simp only [invokeStep] at h
          repeat' split at h
          all_goals simp_all
      | arun p =>
          simp only [invokeStep] at h
          repeat' split at h
          all_goals simp_all
      | deps ps =>
          cases ps <;> simp only [invokeStep] at h
          repeat' split at h
          all_goals simp_all
      | depsAwait ps =>
          cases ps <;> simp only [invokeStep] at h
          repeat' split at h
          all_goals simp_all
      | depsAwaitAll ps =>
          cases ps <;> simp only [invokeStep] at h
          repeat' split at h
          all_goals simp_all
      | fac fb p =>
          simp only [invokeStep] at h
          repeat' split at h
          all_goals simp_all

/-- C3 counterexample: a key that *is* present in the scope's
scoped-services cache but with a falsy cached value (here `None`) still
raises the unresolvable-key error when it is unbound and no default is
given - against the claimed "if and only if the key is ... not in the
scoped cache". -/
theorem get_falsy_cached_unbound_errors :
    alookup (Scope.mk [(.ty 9, .vnone)]).scopedServices (.ty 9) =
        some .vnone ∧
      Services.get ⟨[], []⟩ 20 (.ty 9) (some ⟨[(.ty 9, .vnone)]⟩) none rt0 =
        .error (.cannotResolve (.ty 9)) := by
  decide

/-- C3 amended: `get` without a scope uses a fresh throwaway scope; a
*truthy* cached scoped value is returned as is; with no truthy cached
value the provider map decides: an unbound key returns the supplied
default (even a falsy one) and raises the unresolvable-key error exactly
when, additionally, no default was supplied. -/
theorem get_lookup_order :
    (∀ (s : Services) (fuel : Nat) (key : Key) (d : Option Value)
        (st : RTState), s.get fuel key none d st =
          s.get fuel key (some Scope.empty) d st) ∧
    (∀ (s : Services) (fuel : Nat) (key : Key) (sc : Scope)
        (d : Option Value) (st : RTState) (v : Value),
        alookup sc.scopedServices key = some v → truthy v = true →
          s.get fuel key (some sc) d st = .ok (v, sc, st)) ∧
    (∀ (s : Services) (fuel : Nat) (key : Key) (sc : Scope) (st : RTState)
        (dv : Value),
        truthy ((alookup sc.scopedServices key).getD .vnone) = false →
        alookup s.map key = none →
          s.get fuel key (some sc) (some dv) st = .ok (dv, sc, st)) ∧
    (∀ (s : Services) (fuel : Nat) (key : Key) (sc : Scope) (st : RTState),
        truthy ((alookup sc.scopedServices key).getD .vnone) = false →
        alookup s.map key = none →
          s.get fuel key (some sc) none st = .error (.cannotResolve key)) ∧
    (∀ (s : Services) (fuel : Nat) (key : Key) (sc : Scope)
        (d : Option Value) (st : RTState) (k' : Key),
        s.get fuel key (some sc) d st = .error (.cannotResolve k') →
          k' = key ∧ alookup s.map key = none ∧ d = none ∧
            truthy ((alookup sc.scopedServices key).getD .vnone) = false) := by
  refine ⟨?_, ?_, ?_, ?_, ?_⟩
  · intro s fuel key d st
    simp [Services.get]
  · intro s fuel key sc d st v hv ht
    simp [Services.get, hv, ht]
  · intro s fuel key sc st dv ht hm
    simp [Services.get, ht, hm]
  · intro s fuel key sc st ht hm
    simp [Services.get, ht, hm]
  · intro s fuel key sc d st k' h
    simp only [Services.get] at h
    split at h
    · simp at h
    · rename_i hfalsy
      cases hm : alookup s.map key with
      | some p =>
          simp only [hm] at h
          split at h
          · simp at h
          · simp at h
          · rename_i e heq
            injection h with h1
            exact absurd (h1 ▸ heq)
              (invokeStep_no_cannotResolve s.heap fuel _ sc st k')
      | none =>
          simp only [hm] at h
          cases d with
          | some dv => simp at h
          | none =>
              simp at h
              exact ⟨h.symm, rfl, rfl, by simpa using hfalsy⟩

/-- Witness for C3 amended: the truthy-cache conjunct at a concrete
scope holding a truthy value. -/
theorem get_lookup_order_witness :
    Services.get ⟨[], []⟩ 20 (.ty 9) (some ⟨[(.ty 9, .int 5)]⟩) none rt0 =
      .ok (.int 5, ⟨[(.ty 9, .int 5)]⟩, rt0) :=
  get_lookup_order.2.1 ⟨[], []⟩ 20 (.ty 9) ⟨[(.ty 9, .int 5)]⟩ none rt0
    (.int 5) (by decide) (by decide)

/-- C8: a falsy value cached in the scope's scoped-services never
short-circuits `Services.get`: for a bound key the provider runs and a
fresh instance (distinct from the cached value) is returned; for an
unbound key the default or the unresolvable-key error applies; only a
truthy cached value is returned from the cache (then without invoking
the provider or constructing anything). -/
theorem get_scoped_cache_truthiness :
    (∀ v : Value, truthy v = false →
        Services.get servicesT 20 (.ty tyA) (some ⟨[(.ty tyA, v)]⟩) none rt0 =
          .ok (.obj tyA 0, ⟨[(.ty tyA, v)]⟩, ⟨[], 1, [(0, tyA, [])], [], []⟩) ∧
        .obj tyA 0 ≠ v) ∧
    (∀ (v : Value) (d : Value), truthy v = false →
        Services.get ⟨[], []⟩ 20 (.ty tyA) (some ⟨[(.ty tyA, v)]⟩) (some d) rt0 =
          .ok (d, ⟨[(.ty tyA, v)]⟩, rt0)) ∧
    (∀ v : Value, truthy v = false →
        Services.get ⟨[], []⟩ 20 (.ty tyA) (some ⟨[(.ty tyA, v)]⟩) none rt0 =
          .error (.cannotResolve (.ty tyA))) ∧
    (∀ w : Value, truthy w = true →
        Services.get servicesT 20 (.ty tyA) (some ⟨[(.ty tyA, w)]⟩) none rt0 =
          .ok (w, ⟨[(.ty tyA, w)]⟩, rt0)) := by
  refine ⟨?_, ?_, ?_, ?_⟩
  · intro v hv
    constructor
    · simp [Services.get, alookup, hv, servicesT, invokeStep, descAt,
        construct, rt0, tyA]
    · intro hh
      rw [← hh] at hv
      simp [truthy] at hv
  · intro v d hv
    simp [Services.get, alookup, hv]
  · intro v hv
    simp [Services.get, alookup, hv]
  · intro w hw
    simp [Services.get, alookup, hw]

/-- Witness for C8 at the falsy value `None`, the truthy value `5` and
the default `7`. -/
theorem get_scoped_cache_truthiness_witness :
    (Services.get servicesT 20 (.ty tyA) (some ⟨[(.ty tyA, .vnone)]⟩) none rt0 =
        .ok (.obj tyA 0, ⟨[(.ty tyA, .vnone)]⟩,
          ⟨[], 1, [(0, tyA, [])], [], []⟩) ∧
      Value.obj tyA 0 ≠ .vnone) ∧
    Services.get ⟨[], []⟩ 20 (.ty tyA) (some ⟨[(.ty tyA, .vnone)]⟩)
        (some (.int 7)) rt0 =
      .ok (.int 7, ⟨[(.ty tyA, .vnone)]⟩, rt0) ∧
    Services.get servicesT 20 (.ty tyA) (some ⟨[(.ty tyA, .int 5)]⟩) none rt0 =
      .ok (.int 5, ⟨[(.ty tyA, .int 5)]⟩, rt0) :=
  ⟨get_scoped_cache_truthiness.1 .vnone (by decide),
    get_scoped_cache_truthiness.2.1 .vnone (.int 7) (by decide),
    get_scoped_cache_truthiness.2.2.2 (.int 5) (by decide)⟩

/-- C4 counterexample: `SingletonFactoryTypeProvider` guards its cache
with `is None`, so a singleton-bound factory that returns `None` is
executed again on every resolution - two `get` calls produce two factory
runs of the same provider. -/
theorem singleton_none_factory_reruns :
    build_provider gammaF cFacNone 20 = .ok servicesFacNone ∧
      runReqs servicesFacNone 20 [.ty tyF, .ty tyF] rt0 =
        ([.ok .vnone, .ok .vnone], ⟨[(0, .vnone)], 0, [], [0, 0], []⟩) := by
  decide

/-- Once the singleton cell holds the (non-`None`) produced instance,
further `get` requests return it without another factory run. -/
theorem facObj_steady (n : Nat) :
    runReqs servicesFacObj 20 (List.replicate n (.ty tyF)) facSt1 =
      (List.replicate n (.ok (.obj tyF 0)), facSt1) := by
  induction n with
  | zero => rfl
  | succ n ih =>
      simp only [List.replicate_succ, runReqs]
      rw [show Services.get servicesFacObj 20 (.ty tyF) none none facSt1 =
        .ok (.obj tyF 0, Scope.empty, facSt1) from by decide]
      simp [ih]

/-- Once the async singleton cell is filled, further `aget` requests
await a fresh coroutine but return the cached instance without running
the factory again. -/
theorem facAsync_steady (n : Nat) :
    runAgets servicesFacAsync 20 (.ty tyF) n facSt1 =
      (List.replicate n (.ok (.obj tyF 0)), facSt1) := by
  induction n with
  | zero => rfl
  | succ n ih =>
      simp only [runAgets]
      rw [show Services.aget servicesFacAsync 20 (.ty tyF) none none facSt1 =
        .ok (.obj tyF 0, Scope.empty, facSt1) from by decide]
      simp [ih, List.replicate_succ]

/-- Once the scoped cache of the shared scope holds the produced
instance, further `get` requests in that scope return it from the cache. -/
theorem facScoped_steady (n : Nat) (st : RTState) :
    runScope servicesFacScoped 20 (List.replicate n (.ty tyF))
        ⟨[(.ty tyF, .obj tyF 0)]⟩ st =
      (List.replicate n (.ok (.obj tyF 0)), ⟨[(.ty tyF, .obj tyF 0)]⟩, st) := by
  induction n with
  | zero => rfl
  | succ n ih =>
      simp only [List.replicate_succ, runScope]
      rw [show Services.get servicesFacScoped 20 (.ty tyF)
          (some ⟨[(.ty tyF, .obj tyF 0)]⟩) none st =
        .ok (.obj tyF 0, ⟨[(.ty tyF, .obj tyF 0)]⟩, st) from rfl]
      simp [ih]

/-- C4 amended: for cached lifetimes the factory runs only on the first
invocation *provided the produced value is not `None`*: a singleton
factory producing an instance runs exactly once over any number of
`get` requests; an async singleton factory is awaited on every `aget`
but executed only on the first; a scoped factory runs once per scope.
(The unamended claim fails for a `None`-producing singleton factory,
whose `is None` cache check never sees a filled cell.) -/
theorem cached_factory_runs_once :
    build_provider gammaF cFacObj 20 = .ok servicesFacObj ∧
    build_provider gammaF cFacAsync 20 = .ok servicesFacAsync ∧
    build_provider gammaF cFacScoped 20 = .ok servicesFacScoped ∧
    (∀ n : Nat, runReqs servicesFacObj 20 (List.replicate n (.ty tyF)) rt0 =
      (List.replicate n (.ok (.obj tyF 0)), if n = 0 then rt0 else facSt1)) ∧
    (∀ n : Nat, runAgets servicesFacAsync 20 (.ty tyF) n rt0 =
      (List.replicate n (.ok (.obj tyF 0)), if n = 0 then rt0 else facSt1)) ∧
    (∀ n : Nat, runScope servicesFacScoped 20 (List.replicate n (.ty tyF))
        Scope.empty rt0 =
      (List.replicate n (.ok (.obj tyF 0)),
        (if n = 0 then Scope.empty else ⟨[(.ty tyF, .obj tyF 0)]⟩),
        if n = 0 then rt0 else facScopedSt1)) := by
  refine ⟨by decide, by decide, by decide, ?_, ?_, ?_⟩
  · intro n
    cases n with
    | zero => rfl
    | succ n =>
        simp only [List.replicate_succ, runReqs]
        rw [show Services.get servicesFacObj 20 (.ty tyF) none none rt0 =
          .ok (.obj tyF 0, Scope.empty, facSt1) from by decide]
        simp [facObj_steady n]
  · intro n
    cases n with
    | zero => rfl
    | succ n =>
        simp only [runAgets]
        rw [show Services.aget servicesFacAsync 20 (.ty tyF) none none rt0 =
          .ok (.obj tyF 0, Scope.empty, facSt1) from by decide]
        simp [facAsync_steady n, List.replicate_succ]
  · intro n
    cases n with
    | zero => rfl
    | succ n =>
        simp only [List.replicate_succ, runScope]
        rw [show Services.get servicesFacScoped 20 (.ty tyF)
            (some Scope.empty) none rt0 =
          .ok (.obj tyF 0, ⟨[(.ty tyF, .obj tyF 0)]⟩, facScopedSt1)
          from by decide]
        simp [facScoped_steady n facScopedSt1]

/-- Unfolding of the request-key alphabet on a cons. -/
theorem reqKeysAB_cons (b : Bool) (bs : List Bool) :
    reqKeysAB (b :: bs) = (if b then .ty tyA else .ty tyB) :: reqKeysAB bs := rfl

/-- Runs of the singleton scenario from each of its three reachable
runtime states: every request returns the one cached `A` / `B`
instance, constructing at most one of each. -/
theorem sing_run (reqs : List Bool) :
    (runReqs (servicesAB .singleton) 20 (reqKeysAB reqs) rt0 =
      (reqs.map singOut,
        if true ∈ reqs then singStAB else if reqs = [] then rt0 else singStB)) ∧
    (runReqs (servicesAB .singleton) 20 (reqKeysAB reqs) singStB =
      (reqs.map singOut, if true ∈ reqs then singStAB else singStB)) ∧
    (runReqs (servicesAB .singleton) 20 (reqKeysAB reqs) singStAB =
      (reqs.map singOut, singStAB)) := by
  induction reqs with
  | nil => exact ⟨rfl, rfl, rfl⟩
  | cons b bs ih =>
      obtain ⟨ih1, ih2, ih3⟩ := ih
      have hBr : Services.get (servicesAB .singleton) 20 (.ty tyB) none none
          rt0 = .ok (.obj tyB 0, Scope.empty, singStB) := by decide
      have hAr : Services.get (servicesAB .singleton) 20 (.ty tyA) none none
          rt0 = .ok (.obj tyA 1, Scope.empty, singStAB) := by decide
      have hBb : Services.get (servicesAB .singleton) 20 (.ty tyB) none none
          singStB = .ok (.obj tyB 0, Scope.empty, singStB) := by decide
      have hAb : Services.get (servicesAB .singleton) 20 (.ty tyA) none none
          singStB = .ok (.obj tyA 1, Scope.empty, singStAB) := by decide
      have hBab : Services.get (servicesAB .singleton) 20 (.ty tyB) none none
          singStAB = .ok (.obj tyB 0, Scope.empty, singStAB) := by decide
      have hAab : Services.get (servicesAB .singleton) 20 (.ty tyA) none none
          singStAB = .ok (.obj tyA 1, Scope.empty, singStAB) := by decide
      simp only [reqKeysAB] at ih1 ih2 ih3
      cases b <;> refine ⟨?_, ?_, ?_⟩ <;>
        simp [reqKeysAB, runReqs, hBr, hAr, hBb, hAb, hBab, hAab,
          ih1, ih2, ih3, singOut]

/-- Once a scope caches both instances, every further request in that
scope is served from the scope cache without any construction. -/
theorem scoped_from_cached (reqs : List Bool) :
    ∀ (st : RTState) (n a : Nat),
      runScope (servicesAB .scoped) 20 (reqKeysAB reqs)
          ⟨[(.ty tyB, .obj tyB n), (.ty tyA, .obj tyA a)]⟩ st =
        (reqs.map (fun b => if b then .ok (.obj tyA a) else .ok (.obj tyB n)),
          ⟨[(.ty tyB, .obj tyB n), (.ty tyA, .obj tyA a)]⟩, st) := by
  induction reqs with
  | nil => intro st n a; rfl
  | cons b bs ih =>
      intro st n a
      have hB : Services.get (servicesAB .scoped) 20 (.ty tyB)
          (some ⟨[(.ty tyB, .obj tyB n), (.ty tyA, .obj tyA a)]⟩) none st =
          .ok (.obj tyB n,
            ⟨[(.ty tyB, .obj tyB n), (.ty tyA, .obj tyA a)]⟩, st) := rfl
      have hA : Services.get (servicesAB .scoped) 20 (.ty tyA)
          (some ⟨[(.ty tyB, .obj tyB n), (.ty tyA, .obj tyA a)]⟩) none st =
          .ok (.obj tyA a,
            ⟨[(.ty tyB, .obj tyB n), (.ty tyA, .obj tyA a)]⟩, st) := rfl
      have ih' := ih st n a
      simp only [reqKeysAB] at ih' ⊢
      cases b <;> simp [runScope, hB, hA, ih']

/-- Once a scope caches the `B` instance (identity `n`, with the object
counter at `n + 1`), later requests reuse it; a first `A` request
constructs the scope's `A` with identity `n + 1`. -/
theorem scoped_from_B (reqs : List Bool) :
    ∀ (st : RTState) (n : Nat), st.nextObj = n + 1 →
      runScope (servicesAB .scoped) 20 (reqKeysAB reqs)
          ⟨[(.ty tyB, .obj tyB n)]⟩ st =
        (scopedOuts n reqs,
          (if true ∈ reqs then
            ⟨[(.ty tyB, .obj tyB n), (.ty tyA, .obj tyA (n + 1))]⟩
          else ⟨[(.ty tyB, .obj tyB n)]⟩),
          if true ∈ reqs then
            {st with
              nextObj := n + 2
              allocs := st.allocs ++ [(n + 1, tyA, [.obj tyB n])]}
          else st) := by
  induction reqs with
  | nil => intro st n hn; rfl
  | cons b bs ih =>
      intro st n hn
      have hB : Services.get (servicesAB .scoped) 20 (.ty tyB)
          (some ⟨[(.ty tyB, .obj tyB n)]⟩) none st =
          .ok (.obj tyB n, ⟨[(.ty tyB, .obj tyB n)]⟩, st) := rfl
      have hA : Services.get (servicesAB .scoped) 20 (.ty tyA)
          (some ⟨[(.ty tyB, .obj tyB n)]⟩) none st =
          .ok (.obj tyA st.nextObj,
            ⟨[(.ty tyB, .obj tyB n), (.ty tyA, .obj tyA st.nextObj)]⟩,
            {st with
              nextObj := st.nextObj + 1
              allocs := st.allocs ++ [(st.nextObj, tyA, [.obj tyB n])]}) := rfl
      rw [hn] at hA
      have ih' := ih st n hn
      have hc := scoped_from_cached bs
        {st with
          nextObj := n + 1 + 1
          allocs := st.allocs ++ [(n + 1, tyA, [.obj tyB n])]} n (n + 1)
      simp only [reqKeysAB, scopedOuts] at ih' hc ⊢
      cases b with
      | false => simp [runScope, hB, ih']
      | true => simp [runScope, hA, hc]

/-- One activation scope of the scoped scenario, starting from an empty
scope at an arbitrary runtime state: the scope's `B` gets the current
object counter as identity, its `A` (if requested) the next one. -/
theorem scoped_one_scope (reqs : List Bool) (st : RTState) :
    runScope (servicesAB .scoped) 20 (reqKeysAB reqs) Scope.empty st =
      (scopedOuts st.nextObj reqs,
        (if reqs = [] then Scope.empty
         else if true ∈ reqs then
          ⟨[(.ty tyB, .obj tyB st.nextObj),
            (.ty tyA, .obj tyA (st.nextObj + 1))]⟩
         else ⟨[(.ty tyB, .obj tyB st.nextObj)]⟩),
        {st with
          nextObj := scopedNext st.nextObj reqs
          allocs := st.allocs ++ scopedAllocs st.nextObj reqs}) := by
  cases reqs with
  | nil => simp [scopedOuts, scopedNext, scopedAllocs, runScope]
  | cons b bs =>
      have hB : Services.get (servicesAB .scoped) 20 (.ty tyB)
          (some Scope.empty) none st =
          .ok (.obj tyB st.nextObj, ⟨[(.ty tyB, .obj tyB st.nextObj)]⟩,
            {st with
              nextObj := st.nextObj + 1
              allocs := st.allocs ++ [(st.nextObj, tyB, [])]}) := rfl
      have hA : Services.get (servicesAB .scoped) 20 (.ty tyA)
          (some Scope.empty) none st =
          .ok (.obj tyA (st.nextObj + 1),
            ⟨[(.ty tyB, .obj tyB st.nextObj),
              (.ty tyA, .obj tyA (st.nextObj + 1))]⟩,
            {st with
              nextObj := st.nextObj + 1 + 1
              allocs := st.allocs ++ [(st.nextObj, tyB, [])] ++
                [(st.nextObj + 1, tyA, [.obj tyB st.nextObj])]}) := rfl
      have hb := scoped_from_B bs
        {st with
          nextObj := st.nextObj + 1
          allocs := st.allocs ++ [(st.nextObj, tyB, [])]} st.nextObj (by simp)
      have hc := scoped_from_cached bs
        {st with
          nextObj := st.nextObj + 1 + 1
          allocs := st.allocs ++ [(st.nextObj, tyB, [])] ++
            [(st.nextObj + 1, tyA, [.obj tyB st.nextObj])]}
        st.nextObj (st.nextObj + 1)
      simp only [reqKeysAB, scopedOuts] at hb hc ⊢
      cases b with
      | false =>
          by_cases hmem : true ∈ bs <;>
            simp [runScope, hB, hb, scopedNext, scopedAllocs, scopedOuts,
              List.append_assoc, hmem]
      | true =>
          simp [List.append_assoc] at hc
          simp [runScope, hA, hc, scopedOuts, scopedNext, scopedAllocs,
            List.append_assoc]

/-- Scope groups of the scoped scenario refine the straight-line model:
outputs per scope follow `scopedModel`, and the allocation log is the
concatenation of the per-scope allocations. -/
theorem scoped_scopes (reqss : List (List Bool)) :
    ∀ st : RTState,
      runScopes (servicesAB .scoped) 20 (reqss.map reqKeysAB) st =
        ((scopedModel reqss st.nextObj).1,
          {st with
            nextObj := (scopedModel reqss st.nextObj).2
            allocs := st.allocs ++ scopedAllAllocs reqss st.nextObj}) := by
  induction reqss with
  | nil => intro st; simp [runScopes, scopedModel, scopedAllAllocs]
  | cons rs rss ih =>
      intro st
      simp only [List.map_cons, runScopes, scoped_one_scope rs st]
      rw [ih]
      simp [scopedModel, scopedAllAllocs, scopedNext, List.append_assoc]

/-- The scoped scenario constructs exactly one `B` per nonempty scope
group. -/
theorem scopedAllAllocs_bcount (reqss : List (List Bool)) :
    ∀ n : Nat,
      ((scopedAllAllocs reqss n).filter (fun a => a.2.1 = tyB)).length =
        (reqss.filter (fun rs => !rs.isEmpty)).length := by
  induction reqss with
  | nil => intro n; simp [scopedAllAllocs]
  | cons rs rss ih =>
      intro n
      cases rs with
      | nil => simp [scopedAllAllocs, scopedAllocs, scopedNext, ih]
      | cons b bs =>
          by_cases hmem : true ∈ b :: bs
          · simp [scopedAllAllocs, scopedAllocs, scopedNext, hmem, tyA, tyB]
            simpa [tyA, tyB] using ih (n + 2)
          · simp [scopedAllAllocs, scopedAllocs, scopedNext, hmem, tyA, tyB]
            simpa [tyA, tyB] using ih (n + 1)

/-- The `B` identities of successive nonempty scope groups are strictly
increasing (so different scopes never share a `B` instance). -/
theorem scopedBIds_increasing (reqss : List (List Bool)) :
    ∀ n : Nat, List.Pairwise (· < ·) (scopedBIds reqss n) ∧
      ∀ x ∈ scopedBIds reqss n, n ≤ x := by
  induction reqss with
  | nil => intro n; simp [scopedBIds]
  | cons rs rss ih =>
      intro n
      by_cases hrs : rs = []
      · simpa [scopedBIds, hrs] using ih n
      · have hnext : n + 1 ≤ scopedNext n rs := by
          simp only [scopedNext, hrs, if_false]
          split <;> omega
        obtain ⟨ihp, ihb⟩ := ih (scopedNext n rs)
        refine ⟨?_, ?_⟩
        · simp only [scopedBIds, hrs, if_false]
          exact List.Pairwise.cons
            (fun x hx => by have := ihb x hx; omega) ihp
        · intro x hx
          simp only [scopedBIds, hrs, if_false, List.mem_cons] at hx
          rcases hx with rfl | hx
          · exact le_refl x
          · have := ihb x hx; omega

/-- The transient scenario refines the straight-line model: every
request constructs a fresh `B` (and, for `A` requests, a fresh `A`
receiving that `B`), advancing the object counter. -/
theorem trans_run (reqs : List Bool) :
    ∀ st : RTState,
      runReqs (servicesAB .transient) 20 (reqKeysAB reqs) st =
        ((transModel reqs st.nextObj).1,
          {st with
            nextObj := (transModel reqs st.nextObj).2
            allocs := st.allocs ++ transAllocs reqs st.nextObj}) := by
  induction reqs with
  | nil => intro st; simp [runReqs, transModel, transAllocs]
  | cons b bs ih =>
      intro st
      have hB : Services.get (servicesAB .transient) 20 (.ty tyB) none none
          st = .ok (.obj tyB st.nextObj, Scope.empty,
            {st with
              nextObj := st.nextObj + 1
              allocs := st.allocs ++ [(st.nextObj, tyB, [])]}) := rfl
      have hA : Services.get (servicesAB .transient) 20 (.ty tyA) none none
          st = .ok (.obj tyA (st.nextObj + 1), Scope.empty,
            {st with
              nextObj := st.nextObj + 1 + 1
              allocs := st.allocs ++ [(st.nextObj, tyB, [])] ++
                [(st.nextObj + 1, tyA, [.obj tyB st.nextObj])]}) := rfl
      cases b with
      | false =>
          simp only [reqKeysAB, List.map_cons, runReqs]
          have ih' := ih
            {st with
              nextObj := st.nextObj + 1
              allocs := st.allocs ++ [(st.nextObj, tyB, [])]}
          simp only [reqKeysAB] at ih'
          simp [hB, ih', transModel, transAllocs, List.append_assoc]
      | true =>
          simp only [reqKeysAB, List.map_cons, runReqs]
          have ih' := ih
            {st with
              nextObj := st.nextObj + 1 + 1
              allocs := st.allocs ++ [(st.nextObj, tyB, [])] ++
                [(st.nextObj + 1, tyA, [.obj tyB st.nextObj])]}
          simp only [reqKeysAB] at ih'
          simp [List.append_assoc] at ih'
          simp [hA, ih', transModel, transAllocs, List.append_assoc]

/-- The transient scenario constructs exactly one `B` per request. -/
theorem transAllocs_bcount (reqs : List Bool) :
    ∀ n : Nat,
      ((transAllocs reqs n).filter (fun a => a.2.1 = tyB)).length =
        reqs.length := by
  induction reqs with
  | nil => intro n; simp [transAllocs]
  | cons b bs ih =>
      intro n
      cases b
      · simp [transAllocs, tyA, tyB]
        simpa [tyA, tyB] using ih (n + 1)
      · simp [transAllocs, tyA, tyB]
        simpa [tyA, tyB] using ih (n + 2)

/-- The `B` identities of the transient scenario are strictly
increasing: every resolution constructs a distinct `B`. -/
theorem transAllocs_b_increasing (reqs : List Bool) :
    ∀ n : Nat,
      (∀ x ∈ ((transAllocs reqs n).filter
          (fun a => a.2.1 = tyB)).map Prod.fst, n ≤ x) ∧
      List.Pairwise (· < ·)
        (((transAllocs reqs n).filter (fun a => a.2.1 = tyB)).map
          Prod.fst) := by
  induction reqs with
  | nil => intro n; simp [transAllocs]
  | cons b bs ih =>
      intro n
      cases b with
      | false =>
          obtain ⟨ihb, ihp⟩ := ih (n + 1)
          simp only [transAllocs, Bool.false_eq_true, if_false]
          simp [List.pairwise_cons, tyA, tyB] at ihb ihp ⊢
          exact ⟨fun a x hx => by have := ihb a x hx; omega,
            fun a x hx => by have := ihb a x hx; omega, ihp⟩
      | true =>
          obtain ⟨ihb, ihp⟩ := ih (n + 2)
          simp only [transAllocs, if_true]
          simp [List.pairwise_cons, tyA, tyB] at ihb ihp ⊢
          exact ⟨fun a x hx => by have := ihb a x hx; omega,
            fun a x hx => by have := ihb a x hx; omega, ihp⟩

/-- C2: with `A` depending on `B` by exact declared type, the compiled
providers cache per the declared lifetime.  Singleton: any request
sequence observes the single `B` (identity 0) and single `A` (identity
1), with exactly one `B` constructed per provider map.  Scoped: requests
follow the per-scope model - one `B` per nonempty activation scope,
reused within the scope, with strictly increasing (hence distinct) `B`
identities across scopes.  Transient: every request constructs a fresh
`B` (one per request, all identities distinct). -/
theorem lifetime_caching :
    (build_provider gammaAB (cAB .singleton) 20 = .ok (servicesAB .singleton) ∧
      build_provider gammaAB (cAB .scoped) 20 = .ok (servicesAB .scoped) ∧
      build_provider gammaAB (cAB .transient) 20 =
        .ok (servicesAB .transient)) ∧
    (∀ reqs : List Bool,
      runReqs (servicesAB .singleton) 20 (reqKeysAB reqs) rt0 =
        (reqs.map singOut,
          if true ∈ reqs then singStAB
          else if reqs = [] then rt0 else singStB) ∧
      (allocsOf tyB
          (runReqs (servicesAB .singleton) 20
            (reqKeysAB reqs) rt0).2).length =
        if reqs = [] then 0 else 1) ∧
    (∀ reqss : List (List Bool),
      runScopes (servicesAB .scoped) 20 (reqss.map reqKeysAB) rt0 =
        ((scopedModel reqss 0).1,
          ⟨[], (scopedModel reqss 0).2, scopedAllAllocs reqss 0, [], []⟩) ∧
      (allocsOf tyB
          (runScopes (servicesAB .scoped) 20
            (reqss.map reqKeysAB) rt0).2).length =
        (reqss.filter (fun rs => !rs.isEmpty)).length ∧
      List.Pairwise (· < ·) (scopedBIds reqss 0)) ∧
    (∀ reqs : List Bool,
      runReqs (servicesAB .transient) 20 (reqKeysAB reqs) rt0 =
        ((transModel reqs 0).1,
          ⟨[], (transModel reqs 0).2, transAllocs reqs 0, [], []⟩) ∧
      (allocsOf tyB
          (runReqs (servicesAB .transient) 20
            (reqKeysAB reqs) rt0).2).length = reqs.length ∧
      List.Pairwise (· < ·)
        ((allocsOf tyB
          (runReqs (servicesAB .transient) 20
            (reqKeysAB reqs) rt0).2).map Prod.fst)) := by
  refine ⟨⟨by decide, by decide, by decide⟩, ?_, ?_, ?_⟩
  · intro reqs
    refine ⟨(sing_run reqs).1, ?_⟩
    rw [(sing_run reqs).1]
    by_cases hmem : true ∈ reqs
    · have hne : reqs ≠ [] := List.ne_nil_of_mem hmem
      simp [hmem, hne, allocsOf, singStAB, tyA, tyB]
    · by_cases hne : reqs = []
      · subst hne; simp [allocsOf, rt0]
      · simp [hmem, hne, allocsOf, singStB, tyA, tyB]
  · intro reqss
    refine ⟨?_, ?_, (scopedBIds_increasing reqss 0).1⟩
    · rw [scoped_scopes reqss rt0]
      simp [rt0]
    · rw [scoped_scopes reqss rt0]
      simpa [rt0, allocsOf] using scopedAllAllocs_bcount reqss 0
  · intro reqs
    refine ⟨?_, ?_, ?_⟩
    · rw [trans_run reqs rt0]
      simp [rt0]
    · rw [trans_run reqs rt0]
      simpa [rt0, allocsOf] using transAllocs_bcount reqs 0
    · rw [trans_run reqs rt0]
      simpa [rt0, allocsOf] using (transAllocs_b_increasing reqs 0).2

/-- Head of a twice-extended chain is the head of the once-extended
chain. -/
theorem headD_append_singleton (l : List Ty) (x y d : Ty) :
    ((l ++ [x]) ++ [y]).headD d = (l ++ [x]).headD d := by
  cases l <;> rfl

/-- The default of `headD` is irrelevant on a nonempty chain. -/
theorem headD_default_irrel (l : List Ty) (x d d' : Ty) :
    (l ++ [x]).headD d = (l ++ [x]).headD d' := by
  cases l <;> rfl

set_option maxHeartbeats 1000000 in
/-- Resolving either type of the circular scenario never succeeds: with
no remaining call budget the embedded `RecursionError` escapes, and with
any budget at all the innermost `DynamicResolver.__call__` frame
converts it into a circular-dependency error whose first component is
the head of the resolution chain and whose second component is one of
the two cycle members, the walk having continued past the first
reappearance of a type on the chain. -/
theorem cycle_rdyn_aux :
    ∀ fuel : Nat, ∀ (X : Ty) (bst : BuildSt), bst.resolved = [] →
      (X = tyA ∨ X = tyB) →
      (fuel = 0 ∧ buildStep gammaCycle cCycle fuel (.rdyn X .transient) bst =
        .error .recursionError) ∨
      (∃ t', (t' = tyA ∨ t' = tyB) ∧
        buildStep gammaCycle cCycle fuel (.rdyn X .transient) bst =
          .error (.circularDependency ((bst.chain ++ [X]).headD X) t')) := by
  intro fuel
  induction fuel using Nat.strong_induction_on with
  | _ fuel IH =>
      intro X bst hres hX
      rcases fuel with _ | f0
      · exact Or.inl ⟨rfl, by simp [buildStep]⟩
      · right
        rcases hX with rfl | rfl
        · -- X = A, whose dependency is B
          simp only [buildStep, gammaCycle, tyA, tyB, if_true]
          rcases f0 with _ | f1
          · exact ⟨0, Or.inl rfl, by
              simp [buildStep, cCycle, alookup, hasKey, isUnionAnn, tyA, tyB,
                hres]⟩
          · rcases f1 with _ | f2
            · exact ⟨0, Or.inl rfl, by
                simp [buildStep, cCycle, alookup, hasKey, isUnionAnn, tyA,
                  tyB, hres]⟩
            · rcases f2 with _ | f3
              · exact ⟨0, Or.inl rfl, by
                  simp [buildStep, cCycle, alookup, hasKey, isUnionAnn, tyA,
                    tyB, hres]⟩
              · rcases f3 with _ | f4
                · exact ⟨0, Or.inl rfl, by
                    simp [buildStep, cCycle, alookup, hasKey, isUnionAnn,
                      tyA, tyB, hres]⟩
                · rcases f4 with _ | f5
                  · exact ⟨0, Or.inl rfl, by
                      simp [buildStep, cCycle, alookup, hasKey, isUnionAnn,
                        tyA, tyB, hres]⟩
                  · rcases IH f5 (by omega) 1
                        ⟨bst.heap, [], bst.chain ++ [0]⟩ rfl
                        (Or.inr rfl) with ⟨hf5, heq⟩ | ⟨t', ht', heq⟩
                    · refine ⟨0, Or.inl rfl, ?_⟩
                      simp only [cCycle, tyA, tyB] at heq
                      simp [buildStep, cCycle, alookup, hasKey, isUnionAnn,
                        tyA, tyB, hres, heq]
                    · refine ⟨t', ht', ?_⟩
                      simp only [cCycle, tyA, tyB] at heq
                      simp [buildStep, cCycle, alookup, hasKey, isUnionAnn,
                        tyA, tyB, hres, heq, headD_append_singleton,
                        headD_default_irrel]
                      cases hc : bst.chain <;> rfl
        · -- X = B, whose dependency is A
          simp only [buildStep, gammaCycle, tyA, tyB, if_true]
          rcases f0 with _ | f1
          · exact ⟨1, Or.inr rfl, by
              simp [buildStep, cCycle, alookup, hasKey, isUnionAnn, tyA, tyB,
                hres]⟩
          · rcases f1 with _ | f2
            · exact ⟨1, Or.inr rfl, by
                simp [buildStep, cCycle, alookup, hasKey, isUnionAnn, tyA,
                  tyB, hres]⟩
            · rcases f2 with _ | f3
              · exact ⟨1, Or.inr rfl, by
                  simp [buildStep, cCycle, alookup, hasKey, isUnionAnn, tyA,
                    tyB, hres]⟩
              · rcases f3 with _ | f4
                · exact ⟨1, Or.inr rfl, by
                    simp [buildStep, cCycle, alookup, hasKey, isUnionAnn,
                      tyA, tyB, hres]⟩
                · rcases f4 with _ | f5
                  · exact ⟨1, Or.inr rfl, by
                      simp [buildStep, cCycle, alookup, hasKey, isUnionAnn,
                        tyA, tyB, hres]⟩
                  · rcases IH f5 (by omega) 0
                        ⟨bst.heap, [], bst.chain ++ [1]⟩ rfl
                        (Or.inl rfl) with ⟨hf5, heq⟩ | ⟨t', ht', heq⟩
                    · refine ⟨1, Or.inr rfl, ?_⟩
                      simp only [cCycle, tyA, tyB] at heq
                      simp [buildStep, cCycle, alookup, hasKey, isUnionAnn,
                        tyA, tyB, hres, heq]
                    · refine ⟨t', ht', ?_⟩
                      simp only [cCycle, tyA, tyB] at heq
                      simp [buildStep, cCycle, alookup, hasKey, isUnionAnn,
                        tyA, tyB, hres, heq, headD_append_singleton,
                        headD_default_irrel]
                      cases hc : bst.chain <;> rfl

/-- C1 amended: building the provider map of the mutually dependent
pair fails deterministically with a circular-dependency error for every
call budget that lets the first resolver run, but the failure comes
from exhausting the call-stack budget (`RecursionError` caught in
`DynamicResolver.__call__`), and the error names only the entry type of
the pass (`chain[0]`) and whichever cycle member was being resolved
when the budget ran out - not the full chain. -/
theorem cycle_build_fails (fuel : Nat) (h : 2 ≤ fuel) :
    ∃ t', (t' = tyA ∨ t' = tyB) ∧
      build_provider gammaCycle cCycle fuel =
        .error (.circularDependency tyA t') := by
  obtain ⟨f, rfl⟩ : ∃ f, fuel = f + 2 := ⟨fuel - 2, by omega⟩
  rcases cycle_rdyn_aux (f + 1) tyA ⟨[], [], []⟩ rfl (Or.inl rfl) with
    ⟨h0, _⟩ | ⟨t', ht', heq⟩
  · omega
  · refine ⟨t', ht', ?_⟩
    have hmap : cCycle.map =
        [(tyA, .dynamic tyA .transient), (tyB, .dynamic tyB .transient)] := rfl
    simp only [build_provider, hmap, buildLoop, alookup]
    rw [show buildStep gammaCycle cCycle (f + 2)
        (.rcall (.dynamic tyA .transient)) ⟨[], [], []⟩ =
      buildStep gammaCycle cCycle (f + 1)
        (.rdyn tyA .transient) ⟨[], [], []⟩ from rfl]
    rw [heq]
    simp [tyA]

/-- Witness for C1 amended at the concrete budget 12. -/
theorem cycle_build_fails_witness :
    ∃ t', (t' = tyA ∨ t' = tyB) ∧
      build_provider gammaCycle cCycle 12 =
        .error (.circularDependency tyA t') :=
  cycle_build_fails 12 (by decide)

/-- C1 counterexample: the second type named by the circular-dependency
error flips between `A` and `B` as the call-stack budget varies by one,
so the error is produced by exhausting the call depth, not by an
immediate check when a type reappears on the chain, and it does not
name the (budget-independent) full chain from the entry type to the
repeated type. -/
theorem cycle_error_depends_on_stack_budget :
    build_provider gammaCycle cCycle 19 =
        .error (.circularDependency tyA tyA) ∧
      build_provider gammaCycle cCycle 20 =
        .error (.circularDependency tyA tyB) ∧
      Err.circularDependency tyA tyA ≠ .circularDependency tyA tyB := by
  decide

/-- Helper `bindInto` only touches the type key and the class-name string key. -/
theorem alookup_bindInto_ne (Γ : ClassTable) (t : Ty) (p : PId)
    (m : List (Key × PId)) (key : Key) (h1 : key ≠ .ty t)
    (h2 : key ≠ .str (class_name Γ t)) :
    alookup (bindInto Γ t p m) key = alookup m key := by
  by_cases hd : containsDot (class_name Γ t) = true
  · rw [show bindInto Γ t p m = ainsert m (.ty t) p from by
      simp [bindInto, hd]]
    exact alookup_ainsert_ne m (.ty t) key p h1
  · rw [show bindInto Γ t p m =
        ainsert (ainsert m (.ty t) p) (.str (class_name Γ t)) p from by
      simp [bindInto, hd]]
    rw [alookup_ainsert_ne (ainsert m (.ty t) p) (.str (class_name Γ t))
      key p h2]
    exact alookup_ainsert_ne m (.ty t) key p h1

/-- Inverting one step of the binding loop: a successful run through a
cons continues as a successful run on the tail, with the head's
provider inserted under its type key and (name permitting) its bare
class name. -/
theorem buildLoop_cons_inv (Γ : ClassTable) (c : Container) (fuel : Nat)
    (t : Ty) (r : Resolver) (rest : List (Ty × Resolver))
    (m : List (Key × PId)) (bst : BuildSt)
    (out : List (Key × PId) × BuildSt)
    (hok : buildLoop Γ c fuel ((t, r) :: rest) m bst = .ok out) :
    ∃ (p : PId) (bst₂ : BuildSt),
      buildLoop Γ c fuel rest (bindInto Γ t p m) bst₂ = .ok out := by
  simp only [buildLoop] at hok
  split at hok
  · split at hok
    · simp at hok
    · exact ⟨_, _, hok⟩
  · split at hok
    · exact ⟨_, _, hok⟩
    · simp at hok
    · simp at hok

/-- Keys untouched by the remaining bindings keep their mapping through
the binding loop. -/
theorem buildLoop_preserve (Γ : ClassTable) (c : Container) (fuel : Nat) :
    ∀ (bindings : List (Ty × Resolver)) (m : List (Key × PId))
      (bst : BuildSt) (m' : List (Key × PId)) (bst' : BuildSt),
      buildLoop Γ c fuel bindings m bst = .ok (m', bst') →
      ∀ key : Key,
        (∀ tr ∈ bindings, key ≠ .ty tr.1 ∧
          key ≠ .str (class_name Γ tr.1)) →
        alookup m' key = alookup m key := by
  intro bindings
  induction bindings with
  | nil =>
      intro m bst m' bst' hok key _
      simp only [buildLoop] at hok
      injection hok with h
      injection h with h1 _
      rw [← h1]
  | cons hd rest ih =>
      obtain ⟨t, r⟩ := hd
      intro m bst m' bst' hok key hkey
      obtain ⟨p, bst₂, hok₂⟩ := buildLoop_cons_inv Γ c fuel t r rest m bst
        (m', bst') hok
      have h1 := (hkey (t, r) (List.mem_cons_self _ _)).1
      have h2 := (hkey (t, r) (List.mem_cons_self _ _)).2
      rw [ih _ _ _ _ hok₂ key
        (fun tr htr => hkey tr (List.mem_cons_of_mem _ htr))]
      exact alookup_bindInto_ne Γ t p m key h1 h2

/-- C9 amended theorem core: in a successful build, every binding whose
bare class name is unqualified and not shared with another binding ends
with its class-name string mapped to the same provider as its type
key. -/
theorem buildLoop_names (Γ : ClassTable) (c : Container) (fuel : Nat) :
    ∀ (bindings : List (Ty × Resolver)) (m : List (Key × PId))
      (bst : BuildSt) (m' : List (Key × PId)) (bst' : BuildSt),
      buildLoop Γ c fuel bindings m bst = .ok (m', bst') →
      ((bindings.map Prod.fst).map (class_name Γ)).Nodup →
      ∀ t ∈ bindings.map Prod.fst, containsDot (class_name Γ t) = false →
        alookup m' (.str (class_name Γ t)) = alookup m' (.ty t) := by
  intro bindings
  induction bindings with
  | nil => intro m bst m' bst' _ _ t ht; simp at ht
  | cons hd rest ih =>
      obtain ⟨t₀, r₀⟩ := hd
      intro m bst m' bst' hok hnodup t ht hdot
      simp only [List.map_cons, List.nodup_cons] at hnodup
      obtain ⟨hname, htail⟩ := hnodup
      obtain ⟨p, bst₂, hok₂⟩ := buildLoop_cons_inv Γ c fuel t₀ r₀ rest m bst
        (m', bst') hok
      simp only [List.map_cons, List.mem_cons] at ht
      rcases ht with rfl | ht
      · have hpres : ∀ key : Key, key = .ty t ∨ key = .str (class_name Γ t) →
            alookup m' key = alookup (bindInto Γ t p m) key := by
          intro key hk
          refine buildLoop_preserve Γ c fuel rest _ _ _ _ hok₂ key ?_
          intro tr htr
          have hne : class_name Γ tr.1 ≠ class_name Γ t := by
            intro hcontra
            exact hname (hcontra ▸ List.mem_map_of_mem (class_name Γ)
              (List.mem_map_of_mem Prod.fst htr))
          rcases hk with rfl | rfl
          · constructor
            · intro hcontra
              injection hcontra with hcc
              exact hne (by rw [hcc])
            · intro hcontra; cases hcontra
          · constructor
            · intro hcontra; cases hcontra
            · intro hcontra
              injection hcontra with hcc
              exact hne hcc.symm
        rw [hpres (.str (class_name Γ t)) (Or.inr rfl),
          hpres (.ty t) (Or.inl rfl),
          show bindInto Γ t p m =
            ainsert (ainsert m (.ty t) p) (.str (class_name Γ t)) p from by
          simp [bindInto, hdot]]
        rw [alookup_ainsert_self]
        rw [alookup_ainsert_ne (ainsert m (.ty t) p)
          (.str (class_name Γ t)) (.ty t) p
          (by intro hcontra; cases hcontra)]
        rw [alookup_ainsert_self]
      · exact ih _ _ _ _ hok₂ htail t ht hdot

/-- Helper: through a successful implicit-alias pass, a string entry
whose every candidate list registered under that name starts with the
type `t` stays equal to the type entry of `t` (the pass writes only
string keys, and every write under that name copies the provider of
`t`). -/
theorem aliasLoop_name_entry (n : String) (t : Ty) :
    ∀ (als : List (String × List Ty)) (m m' : List (Key × PId)),
      aliasLoop m als = .ok m' →
      (∀ pr ∈ als, pr.1 = n → pr.2.head? = some t) →
      alookup m (.str n) = alookup m (.ty t) →
      alookup m' (.str n) = alookup m' (.ty t) := by
  intro als
  induction als with
  | nil =>
      intro m m' hok _ heq
      simp only [aliasLoop] at hok
      injection hok with h
      rw [← h]
      exact heq
  | cons hd rest ih =>
      obtain ⟨name, ts⟩ := hd
      intro m m' hok hcand heq
      simp only [aliasLoop] at hok
      cases hat : aliasTarget m name ts.head? with
      | error e => simp [hat] at hok
      | ok p =>
          simp only [hat] at hok
          by_cases hn : name = n
          · subst hn
            have hh : ts.head? = some t :=
              hcand (name, ts) (List.mem_cons_self _ _) rfl
            rw [hh] at hat
            simp only [aliasTarget] at hat
            cases hty : alookup m (.ty t) with
            | none => simp [hty] at hat
            | some q =>
                simp only [hty] at hat
                injection hat with hat
                refine ih _ _ hok
                  (fun pr hpr h1 => hcand pr (List.mem_cons_of_mem _ hpr) h1)
                  ?_
                rw [alookup_ainsert_self,
                  alookup_ainsert_ne m (.str name) (.ty t) p
                    (by intro hc; cases hc),
                  hty, hat]
          · refine ih _ _ hok
              (fun pr hpr h1 => hcand pr (List.mem_cons_of_mem _ hpr) h1) ?_
            rw [alookup_ainsert_ne m (.str name) (.str n) p
                (by intro hc; injection hc with hc; exact hn hc.symm),
              alookup_ainsert_ne m (.str name) (.ty t) p
                (by intro hc; cases hc)]
            exact heq

/-- Helper: through a successful exact-alias pass, a string entry whose
every exact alias registered under that name targets the type `t`
stays equal to the type entry of `t`. -/
theorem exactAliasLoop_name_entry (n : String) (t : Ty) :
    ∀ (als : List (String × Ty)) (m m' : List (Key × PId)),
      exactAliasLoop m als = .ok m' →
      (∀ pr ∈ als, pr.1 = n → pr.2 = t) →
      alookup m (.str n) = alookup m (.ty t) →
      alookup m' (.str n) = alookup m' (.ty t) := by
  intro als
  induction als with
  | nil =>
      intro m m' hok _ heq
      simp only [exactAliasLoop] at hok
      injection hok with h
      rw [← h]
      exact heq
  | cons hd rest ih =>
      obtain ⟨name, t'⟩ := hd
      intro m m' hok hcand heq
      simp only [exactAliasLoop] at hok
      cases hat : aliasTarget m name (some t') with
      | error e => simp [hat] at hok
      | ok p =>
          simp only [hat] at hok
          by_cases hn : name = n
          · subst hn
            have hh : t' = t :=
              hcand (name, t') (List.mem_cons_self _ _) rfl
            rw [hh] at hat
            simp only [aliasTarget] at hat
            cases hty : alookup m (.ty t) with
            | none => simp [hty] at hat
            | some q =>
                simp only [hty] at hat
                injection hat with hat
                refine ih _ _ hok
                  (fun pr hpr h1 => hcand pr (List.mem_cons_of_mem _ hpr) h1)
                  ?_
                rw [alookup_ainsert_self,
                  alookup_ainsert_ne m (.str name) (.ty t) p
                    (by intro hc; cases hc),
                  hty, hat]
          · refine ih _ _ hok
              (fun pr hpr h1 => hcand pr (List.mem_cons_of_mem _ hpr) h1) ?_
            rw [alookup_ainsert_ne m (.str name) (.str n) p
                (by intro hc; injection hc with hc; exact hn hc.symm),
              alookup_ainsert_ne m (.str name) (.ty t) p
                (by intro hc; cases hc)]
            exact heq

/-- C9 amended: a successful `build_provider` maps the bare class-name
string of every bound key whose class name is unqualified to the very
same provider as the type key itself - in strict mode as well -
provided the bound keys' bare class names are pairwise distinct and,
outside strict mode, every implicit-alias entry registered under that
name lists the key itself as its first candidate and every exact alias
under that name targets the key itself (the state plain binds of
distinctly named classes leave the alias tables in); sharing a bare
name with another binding (see the counterexample) or redirecting the
name through the alias tables breaks the correspondence. -/
theorem class_name_entries (Γ : ClassTable) (c : Container)
    (fuel : Nat) (s : Services)
    (hok : build_provider Γ c fuel = .ok s)
    (hnodup : ((c.map.map Prod.fst).map (class_name Γ)).Nodup) :
    ∀ t ∈ c.map.map Prod.fst, containsDot (class_name Γ t) = false →
      (c.strict = true ∨
        ((∀ pr ∈ c.aliases, pr.1 = class_name Γ t → pr.2.head? = some t) ∧
          (∀ pr ∈ c.exactAliases, pr.1 = class_name Γ t → pr.2 = t))) →
      alookup s.map (.str (class_name Γ t)) = alookup s.map (.ty t) := by
  intro t ht hdot hside
  cases hb : buildLoop Γ c fuel c.map [] ⟨[], [], []⟩ with
  | error e => simp [build_provider, hb] at hok
  | ok mb =>
      obtain ⟨m, bst⟩ := mb
      have hm : alookup m (.str (class_name Γ t)) = alookup m (.ty t) :=
        buildLoop_names Γ c fuel c.map [] ⟨[], [], []⟩ m bst hb hnodup
          t ht hdot
      cases hs : c.strict with
      | true =>
          simp only [build_provider, hb, hs, if_true] at hok
          injection hok with hok
          rw [← hok]
          exact hm
      | false =>
          rcases hside with h | hside
          · rw [hs] at h; cases h
          · obtain ⟨ha, he⟩ := hside
            simp only [build_provider, hb, hs, Bool.false_eq_true,
              if_false] at hok
            cases hal : aliasLoop m c.aliases with
            | error e => simp [hal] at hok
            | ok m₁ =>
                simp only [hal] at hok
                cases hex : exactAliasLoop m₁ c.exactAliases with
                | error e => simp [hex] at hok
                | ok m₂ =>
                    simp only [hex] at hok
                    injection hok with hok
                    rw [← hok]
                    exact exactAliasLoop_name_entry _ _ c.exactAliases m₁ m₂
                      hex he
                      (aliasLoop_name_entry _ _ c.aliases m m₁ hal ha hm)

/-- Witness for C9 amended: in the transient `A`/`B` scenario the string
`"A"` resolves the same provider as the type `A`, both in the strict
container and in the non-strict one (whose alias tables were populated
by `_bind` itself). -/
theorem class_name_entries_witness :
    (alookup (servicesAB .transient).map
        (.str (class_name gammaAB tyA)) =
      alookup (servicesAB .transient).map (.ty tyA)) ∧
    (alookup servicesABNon.map (.str (class_name gammaAB tyA)) =
      alookup servicesABNon.map (.ty tyA)) :=
  ⟨class_name_entries gammaAB (cAB .transient) 20
      (servicesAB .transient) (by decide) (by decide) tyA
      (by decide) (by decide) (Or.inl (by decide)),
    class_name_entries gammaAB cABNon 20 servicesABNon
      (by decide) (by decide) tyA (by decide) (by decide)
      (Or.inr ⟨by decide, by decide⟩)⟩
